import Mathlib

/-!
Verification of the cartesian (2-D grid) vertex-cut partitioner of the Galois
distributed-graph library, a shallow embedding of
`libdist/include/galois/graphs/DistributedGraph_CartesianCut.h`.

Machine integers (`unsigned`, `uint32_t`, `uint64_t`) are modelled as `ℕ`:
the quantities involved (host ids, grid coordinates, node ids, edge counts)
never approach their C++ type bounds in well-formed configurations, and no
arithmetic in the translated code relies on wrap-around.  `std::vector` is
a `List`, indexed with `List.getD`; the `gid2host` table of the base class
is carried in the configuration record.
-/

namespace GaloisCC

/-- Decrement from `c` until a divisor of `H` is found; `0` when none is met.
Models the loop `while ((numHosts % numColumnHosts) != 0) numColumnHosts--;`
of `factorizeHosts`, started at `c = sqrt numHosts` (the C++ `sqrt` on a
32-bit unsigned, truncated, agrees with `Nat.sqrt`). -/
def findDivisorDown (H : ℕ) : ℕ → ℕ
  | 0 => 0
  | c + 1 => if H % (c + 1) = 0 then c + 1 else findDivisorDown H c

/-- Static configuration of one partitioning run: the template parameters of
`DistGraphCartesianCut`, the host count, and the global node-splitting table
`gid2host` (one `[start, end)` pair per virtual host) computed by
`computeMasters` of the base class. -/
structure CCConfig where
  numHosts : ℕ
  decomposeFactor : ℕ
  columnBlocked : Bool
  moreColumnHosts : Bool
  gid2host : List (ℕ × ℕ)
  numGlobalNodes : ℕ
deriving DecidableEq

/-- Virtual host count: `numHosts * DecomposeFactor` (from `factorizeHosts`). -/
def CCConfig.numVirtualHosts (cfg : CCConfig) : ℕ :=
  cfg.numHosts * cfg.decomposeFactor

/-- The column count computed by `factorizeHosts` before the orientation swap:
the first divisor of `numHosts` reached decrementing from `sqrt numHosts`. -/
def CCConfig.baseColumnHosts (cfg : CCConfig) : ℕ :=
  findDivisorDown cfg.numHosts (Nat.sqrt cfg.numHosts)

/-- Field `numColumnHosts` after `factorizeHosts` ran: the base column count,
or `numHosts / base` when `moreColumnHosts` swapped the factors. -/
def CCConfig.numColumnHosts (cfg : CCConfig) : ℕ :=
  if cfg.moreColumnHosts then cfg.numHosts / cfg.baseColumnHosts
  else cfg.baseColumnHosts

/-- Field `numRowHosts` after `factorizeHosts` ran: the other factor,
multiplied by `DecomposeFactor` at the end of `factorizeHosts`. -/
def CCConfig.numRowHosts (cfg : CCConfig) : ℕ :=
  (if cfg.moreColumnHosts then cfg.baseColumnHosts
   else cfg.numHosts / cfg.baseColumnHosts) * cfg.decomposeFactor

/-- Maps a virtual host ID to its real host (`virtual2RealHost`). -/
def virtual2RealHost (cfg : CCConfig) (virtualHostID : ℕ) : ℕ :=
  virtualHostID % cfg.numHosts

/-- Grid row of a host (`gridRowID`). -/
def gridRowID (cfg : CCConfig) (id : ℕ) : ℕ := id / cfg.numColumnHosts

/-- Grid column of a host (`gridColumnID`). -/
def gridColumnID (cfg : CCConfig) (id : ℕ) : ℕ := id % cfg.numColumnHosts

/-- The `[start, end)` global-id range of a (virtual) block (`gid2host[b]`). -/
def blockRange (cfg : CCConfig) (b : ℕ) : ℕ × ℕ := cfg.gid2host.getD b (0, 0)

/-- The global ids of a block, as the list `[start, end)`. -/
def blockIds (cfg : CCConfig) (b : ℕ) : List ℕ :=
  List.range' (blockRange cfg b).1 ((blockRange cfg b).2 - (blockRange cfg b).1)

/-- Search `gid2host[h]` for `h = start, start+1, ...` over `fuel` entries for
the block containing `gid`; `numHosts` when none holds it.  Models the loop
body of `getHostID`. -/
def findHostAux (cfg : CCConfig) (gid : ℕ) : ℕ → ℕ → ℕ
  | 0, _ => cfg.numHosts
  | fuel + 1, h =>
    if (blockRange cfg h).1 ≤ gid ∧ gid < (blockRange cfg h).2 then h
    else findHostAux cfg gid fuel (h + 1)

/-- Virtual host owning `gid` (`getHostID`): scans all `numVirtualHosts`
entries of `gid2host` in order. -/
def getHostID (cfg : CCConfig) (gid : ℕ) : ℕ :=
  findHostAux cfg gid cfg.numVirtualHosts 0

/-- Block of a node (`getBlockID`): owner reduced modulo the real host count. -/
def getBlockID (cfg : CCConfig) (gid : ℕ) : ℕ :=
  getHostID cfg gid % cfg.numHosts

/-- Column host of a block (`getColumnHostIDOfBlock`): blocked contiguous
assignment under checkerboard mode, round-robin otherwise. -/
def getColumnHostIDOfBlock (cfg : CCConfig) (blockID : ℕ) : ℕ :=
  if cfg.columnBlocked then blockID / cfg.numRowHosts
  else blockID % cfg.numColumnHosts

/-- Column host of a node (`getColumnHostID`). -/
def getColumnHostID (cfg : CCConfig) (gid : ℕ) : ℕ :=
  getColumnHostIDOfBlock cfg (getBlockID cfg gid)

/-- The accumulation loop of `getColumnIndex`, over the block ids `bs`:
a matching block either ends the scan (`gid < end`, the C++ `break`) giving
the offset inside it, or contributes its full size. -/
def colIndexGo (cfg : CCConfig) (gid h : ℕ) : List ℕ → ℕ
  | [] => 0
  | b :: bs =>
    if getColumnHostIDOfBlock cfg b = h then
      if gid < (blockRange cfg b).2 then gid - (blockRange cfg b).1
      else ((blockRange cfg b).2 - (blockRange cfg b).1) + colIndexGo cfg gid h bs
    else colIndexGo cfg gid h bs

/-- Position of `gid` in its column host's compact index space
(`getColumnIndex`): the C++ loop runs `b` from `0` to `blockID` inclusive. -/
def getColumnIndex (cfg : CCConfig) (gid : ℕ) : ℕ :=
  colIndexGo cfg gid (getColumnHostID cfg gid) (List.range (getBlockID cfg gid + 1))

/-- Well-formedness of `gid2host` as guaranteed by `computeMasters` (spec §3,
BlockMap): one range per virtual host, ranges ordered, contiguous and
covering `[0, numGlobalNodes)`. -/
def Contiguous (cfg : CCConfig) : Prop :=
  cfg.gid2host.length = cfg.numVirtualHosts ∧
  (∀ b < cfg.numVirtualHosts,
    (blockRange cfg b).1 = (if b = 0 then 0 else (blockRange cfg (b - 1)).2) ∧
    (blockRange cfg b).1 ≤ (blockRange cfg b).2) ∧
  (0 < cfg.numVirtualHosts →
    (blockRange cfg (cfg.numVirtualHosts - 1)).2 = cfg.numGlobalNodes)

instance (cfg : CCConfig) : Decidable (Contiguous cfg) := by
  unfold Contiguous; infer_instance

/-! ### Facts about `factorizeHosts` (claim C7) -/

theorem findDivisorDown_spec (H : ℕ) (hH : 1 ≤ H) :
    ∀ c, 1 ≤ c →
      1 ≤ findDivisorDown H c ∧ findDivisorDown H c ≤ c ∧
      H % findDivisorDown H c = 0 ∧
      ∀ k, findDivisorDown H c < k → k ≤ c → H % k ≠ 0 := by
  intro c
  induction c with
  | zero => omega
  | succ c ih =>
    intro _
    by_cases h : H % (c + 1) = 0
    · refine ⟨?_, ?_, ?_, ?_⟩ <;> simp only [findDivisorDown, if_pos h]
      · omega
      · omega
      · exact h
      · omega
    · rcases Nat.eq_zero_or_pos c with hc | hc
      · subst hc; simp [Nat.mod_one] at h
      · obtain ⟨h1, h2, h3, h4⟩ := ih hc
        refine ⟨?_, ?_, ?_, ?_⟩ <;> simp only [findDivisorDown, if_neg h]
        · exact h1
        · omega
        · exact h3
        · intro k hk1 hk2
          rcases Nat.lt_or_ge k (c + 1) with hlt | hge
          · exact h4 k hk1 (by omega)
          · have : k = c + 1 := by omega
            subst this; exact h

theorem baseColumnHosts_pos (cfg : CCConfig) (hH : 1 ≤ cfg.numHosts) :
    1 ≤ cfg.baseColumnHosts :=
  (findDivisorDown_spec cfg.numHosts hH (Nat.sqrt cfg.numHosts)
    (Nat.sqrt_pos.mpr hH)).1

theorem baseColumnHosts_dvd (cfg : CCConfig) (hH : 1 ≤ cfg.numHosts) :
    cfg.baseColumnHosts ∣ cfg.numHosts := by
  have h := (findDivisorDown_spec cfg.numHosts hH (Nat.sqrt cfg.numHosts)
    (Nat.sqrt_pos.mpr hH)).2.2.1
  exact Nat.dvd_of_mod_eq_zero h

theorem baseColumnHosts_le_sqrt (cfg : CCConfig) (hH : 1 ≤ cfg.numHosts) :
    cfg.baseColumnHosts ≤ Nat.sqrt cfg.numHosts :=
  (findDivisorDown_spec cfg.numHosts hH (Nat.sqrt cfg.numHosts)
    (Nat.sqrt_pos.mpr hH)).2.1

theorem baseColumnHosts_greatest (cfg : CCConfig) (hH : 1 ≤ cfg.numHosts) :
    ∀ k, k ∣ cfg.numHosts → k ≤ Nat.sqrt cfg.numHosts →
      k ≤ cfg.baseColumnHosts := by
  intro k hdvd hle
  by_contra hgt
  push_neg at hgt
  obtain ⟨m, hm⟩ := hdvd
  have hmod : cfg.numHosts % k = 0 := by
    rw [hm]; exact Nat.mul_mod_right k m
  exact (findDivisorDown_spec cfg.numHosts hH (Nat.sqrt cfg.numHosts)
    (Nat.sqrt_pos.mpr hH)).2.2.2 k hgt hle hmod

theorem base_le_div_base (cfg : CCConfig) (hH : 1 ≤ cfg.numHosts) :
    cfg.baseColumnHosts ≤ cfg.numHosts / cfg.baseColumnHosts := by
  have hpos := baseColumnHosts_pos cfg hH
  rw [Nat.le_div_iff_mul_le hpos]
  have hs : Nat.sqrt cfg.numHosts * Nat.sqrt cfg.numHosts ≤ cfg.numHosts := by
    have := Nat.sqrt_le' cfg.numHosts
    rwa [pow_two] at this
  calc cfg.baseColumnHosts * cfg.baseColumnHosts
      ≤ Nat.sqrt cfg.numHosts * Nat.sqrt cfg.numHosts :=
        Nat.mul_le_mul (baseColumnHosts_le_sqrt cfg hH)
          (baseColumnHosts_le_sqrt cfg hH)
    _ ≤ cfg.numHosts := hs

/-- C7: `factorizeHosts` computes the column count as the largest divisor of
`H` not exceeding `⌊√H⌋`, the row count as `H / C` (swapped when
`moreColumnHosts`), multiplied by the decompose factor; on exit
`numRowHosts * numColumnHosts = H * D`, and before the orientation swap the
row count dominates the column count. -/
theorem factorizeHosts_correct (cfg : CCConfig) (hH : 1 ≤ cfg.numHosts) :
    (cfg.baseColumnHosts ∣ cfg.numHosts ∧
      cfg.baseColumnHosts ≤ Nat.sqrt cfg.numHosts ∧
      (∀ k, k ∣ cfg.numHosts → k ≤ Nat.sqrt cfg.numHosts →
        k ≤ cfg.baseColumnHosts)) ∧
    cfg.numRowHosts * cfg.numColumnHosts =
      cfg.numHosts * cfg.decomposeFactor ∧
    cfg.baseColumnHosts ≤ cfg.numHosts / cfg.baseColumnHosts := by
  refine ⟨⟨baseColumnHosts_dvd cfg hH, baseColumnHosts_le_sqrt cfg hH,
    baseColumnHosts_greatest cfg hH⟩, ?_, base_le_div_base cfg hH⟩
  have hdvd := baseColumnHosts_dvd cfg hH
  unfold CCConfig.numRowHosts CCConfig.numColumnHosts
  cases cfg.moreColumnHosts
  · simp only [Bool.false_eq_true, if_false]
    rw [Nat.mul_right_comm, Nat.div_mul_cancel hdvd]
  · simp only [reduceIte]
    rw [Nat.mul_right_comm, Nat.mul_div_cancel' hdvd]

/-- Witness for C7 at a concrete configuration (12 hosts, decompose 2). -/
theorem factorizeHosts_correct_witness :
    1 ≤ (12 : ℕ) ∧
    ((CCConfig.mk 12 2 false false [] 0).baseColumnHosts ∣ 12 ∧
      (CCConfig.mk 12 2 false false [] 0).baseColumnHosts ≤ Nat.sqrt 12 ∧
      (∀ k, k ∣ 12 → k ≤ Nat.sqrt 12 →
        k ≤ (CCConfig.mk 12 2 false false [] 0).baseColumnHosts)) ∧
    (CCConfig.mk 12 2 false false [] 0).numRowHosts *
      (CCConfig.mk 12 2 false false [] 0).numColumnHosts = 12 * 2 ∧
    (CCConfig.mk 12 2 false false [] 0).baseColumnHosts ≤
      12 / (CCConfig.mk 12 2 false false [] 0).baseColumnHosts :=
  ⟨by decide, by
    have h := factorizeHosts_correct (CCConfig.mk 12 2 false false [] 0)
      (by decide)
    exact h⟩

/-! ### SyncPolicy: `isNotCommunicationPartner`, `nothingToSend`, `nothingToRecv` -/

/-- Sync direction (`DistGraph::SyncType`). -/
inductive SyncType where
  | syncReduce : SyncType
  | syncBroadcast : SyncType
deriving DecidableEq

/-- Write location of a sync call (`WriteLocation`). -/
inductive WriteLocation where
  | writeSource : WriteLocation
  | writeDestination : WriteLocation
  | writeAny : WriteLocation
deriving DecidableEq

/-- Read location of a sync call (`ReadLocation`). -/
inductive ReadLocation where
  | readSource : ReadLocation
  | readDestination : ReadLocation
  | readAny : ReadLocation
deriving DecidableEq

/-- Per-host runtime state consulted by the sync predicates: the host's id,
the `transposed` flag of the base class, and the two replica tables indexed
by real peer host (`mirrorNodes`, `masterNodes`). -/
structure HostState where
  id : ℕ
  transposed : Bool
  mirrorNodes : List (List ℕ)
  masterNodes : List (List ℕ)
deriving DecidableEq

/-- Whether this host has nothing to exchange with `host` for the given
pattern (`isNotCommunicationPartner`).  The `currentBVFlag` mutations of the
C++ body do not affect the returned value and are dropped. -/
def isNotCommunicationPartner (cfg : CCConfig) (selfId : ℕ) (transposed : Bool)
    (host : ℕ) (syncType : SyncType) (writeLocation : WriteLocation)
    (readLocation : ReadLocation) : Bool :=
  if transposed then
    match syncType with
    | .syncReduce =>
      match writeLocation with
      | .writeSource => decide (gridColumnID cfg selfId ≠ gridColumnID cfg host)
      | .writeDestination => decide (gridRowID cfg selfId ≠ gridRowID cfg host)
      | .writeAny => decide (gridRowID cfg selfId ≠ gridRowID cfg host) &&
          decide (gridColumnID cfg selfId ≠ gridColumnID cfg host)
    | .syncBroadcast =>
      match readLocation with
      | .readSource => decide (gridColumnID cfg selfId ≠ gridColumnID cfg host)
      | .readDestination => decide (gridRowID cfg selfId ≠ gridRowID cfg host)
      | .readAny => decide (gridRowID cfg selfId ≠ gridRowID cfg host) &&
          decide (gridColumnID cfg selfId ≠ gridColumnID cfg host)
  else
    match syncType with
    | .syncReduce =>
      match writeLocation with
      | .writeSource => decide (gridRowID cfg selfId ≠ gridRowID cfg host)
      | .writeDestination => decide (gridColumnID cfg selfId ≠ gridColumnID cfg host)
      | .writeAny => decide (gridRowID cfg selfId ≠ gridRowID cfg host) &&
          decide (gridColumnID cfg selfId ≠ gridColumnID cfg host)
    | .syncBroadcast =>
      match readLocation with
      | .readSource => decide (gridRowID cfg selfId ≠ gridRowID cfg host)
      | .readDestination => decide (gridColumnID cfg selfId ≠ gridColumnID cfg host)
      | .readAny => decide (gridRowID cfg selfId ≠ gridRowID cfg host) &&
          decide (gridColumnID cfg selfId ≠ gridColumnID cfg host)

/-- The shared-node table `nothingToSend` selects: mirrors under Reduce,
masters under Broadcast. -/
def sharedNodesSend (st : HostState) (syncType : SyncType) : List (List ℕ) :=
  match syncType with
  | .syncReduce => st.mirrorNodes
  | .syncBroadcast => st.masterNodes

/-- The shared-node table `nothingToRecv` selects: masters under Reduce,
mirrors under Broadcast. -/
def sharedNodesRecv (st : HostState) (syncType : SyncType) : List (List ℕ) :=
  match syncType with
  | .syncReduce => st.masterNodes
  | .syncBroadcast => st.mirrorNodes

/-- `nothingToSend`: true when the relevant shared-node list for `host` is
empty; otherwise false under checkerboard mode, else the grid predicate. -/
def nothingToSend (cfg : CCConfig) (st : HostState) (host : ℕ)
    (syncType : SyncType) (writeLocation : WriteLocation)
    (readLocation : ReadLocation) : Bool :=
  if ((sharedNodesSend st syncType).getD host []).length > 0 then
    if cfg.columnBlocked then false
    else isNotCommunicationPartner cfg st.id st.transposed host syncType
      writeLocation readLocation
  else true

/-- `nothingToRecv`: the mirror of `nothingToSend` with the masters/mirrors
selector swapped. -/
def nothingToRecv (cfg : CCConfig) (st : HostState) (host : ℕ)
    (syncType : SyncType) (writeLocation : WriteLocation)
    (readLocation : ReadLocation) : Bool :=
  if ((sharedNodesRecv st syncType).getD host []).length > 0 then
    if cfg.columnBlocked then false
    else isNotCommunicationPartner cfg st.id st.transposed host syncType
      writeLocation readLocation
  else true

theorem isNotCommunicationPartner_symm (cfg : CCConfig) (a b : ℕ)
    (t : Bool) (sy : SyncType) (wl : WriteLocation) (rl : ReadLocation) :
    isNotCommunicationPartner cfg a t b sy wl rl =
      isNotCommunicationPartner cfg b t a sy wl rl := by
  unfold isNotCommunicationPartner
  cases t <;> cases sy <;> cases wl <;> cases rl <;>
    simp [eq_comm]

/-- C3: on host `X`, `nothingToSend(Y, ...)` holds exactly when on host `Y`
`nothingToRecv(X, ...)` holds, for every sync type and read/write location.
The hosts share the configuration and the `transposed` flag (all hosts are
constructed with identical arguments), and the hypotheses state replica
closure: `X` holds a mirror list for `Y` exactly when `Y` holds a master
list for `X`, and vice versa — the reciprocity the `masterNodes` exchange
of `setup_communication` establishes. -/
theorem nothingToSend_nothingToRecv_symm (cfg : CCConfig) (X Y : HostState)
    (hT : X.transposed = Y.transposed)
    (hRM : 0 < ((X.mirrorNodes.getD Y.id []).length) ↔
      0 < ((Y.masterNodes.getD X.id []).length))
    (hMR : 0 < ((X.masterNodes.getD Y.id []).length) ↔
      0 < ((Y.mirrorNodes.getD X.id []).length))
    (sy : SyncType) (wl : WriteLocation) (rl : ReadLocation) :
    nothingToSend cfg X Y.id sy wl rl = nothingToRecv cfg Y X.id sy wl rl := by
  unfold nothingToSend nothingToRecv
  have hsym := isNotCommunicationPartner_symm cfg X.id Y.id X.transposed sy wl rl
  cases sy
  · simp only [sharedNodesSend, sharedNodesRecv]
    by_cases h : 0 < (X.mirrorNodes.getD Y.id []).length
    · rw [if_pos h, if_pos (hRM.mp h), hT] at *
      rw [hsym]
    · rw [if_neg h, if_neg (fun hc => h (hRM.mpr hc))]
  · simp only [sharedNodesSend, sharedNodesRecv]
    by_cases h : 0 < (X.masterNodes.getD Y.id []).length
    · rw [if_pos h, if_pos (hMR.mp h), hT] at *
      rw [hsym]
    · rw [if_neg h, if_neg (fun hc => h (hMR.mpr hc))]

/-- Witness for C3: a 2x2 grid (4 hosts), hosts 0 and 1 with reciprocal
nonempty mirror/master lists. -/
theorem nothingToSend_nothingToRecv_symm_witness :
    ((HostState.mk 0 false [[], [5]] [[], [7]]).transposed =
      (HostState.mk 1 false [[3], []] [[9], []]).transposed) ∧
    (0 < (([[], [5]] : List (List ℕ)).getD 1 []).length ↔
      0 < (([[9], []] : List (List ℕ)).getD 0 []).length) ∧
    (0 < (([[], [7]] : List (List ℕ)).getD 1 []).length ↔
      0 < (([[3], []] : List (List ℕ)).getD 0 []).length) ∧
    nothingToSend (CCConfig.mk 4 1 false false [] 0)
      (HostState.mk 0 false [[], [5]] [[], [7]]) 1
      SyncType.syncReduce WriteLocation.writeSource ReadLocation.readAny =
    nothingToRecv (CCConfig.mk 4 1 false false [] 0)
      (HostState.mk 1 false [[3], []] [[9], []]) 0
      SyncType.syncReduce WriteLocation.writeSource ReadLocation.readAny :=
  ⟨rfl, by decide, by decide,
    nothingToSend_nothingToRecv_symm (CCConfig.mk 4 1 false false [] 0)
      (HostState.mk 0 false [[], [5]] [[], [7]])
      (HostState.mk 1 false [[3], []] [[9], []])
      rfl (by decide) (by decide)
      SyncType.syncReduce WriteLocation.writeSource ReadLocation.readAny⟩

/-- C4: under the non-transposed orientation with `columnBlocked = false` and
nonempty shared lists for peer `p`, `nothingToSend` is false exactly on the
grid relation given by the spec's table: same row for the Source location,
same column for Destination, same row or column for Any, identically for the
Reduce cases (keyed on the write location) and the Broadcast cases (keyed on
the read location). -/
theorem nothingToSend_table (cfg : CCConfig) (st : HostState) (p : ℕ)
    (hT : st.transposed = false) (hcb : cfg.columnBlocked = false)
    (hm : 0 < ((st.mirrorNodes.getD p []).length))
    (hM : 0 < ((st.masterNodes.getD p []).length))
    (wl : WriteLocation) (rl : ReadLocation) :
    (nothingToSend cfg st p .syncReduce .writeSource rl = false ↔
      gridRowID cfg st.id = gridRowID cfg p) ∧
    (nothingToSend cfg st p .syncReduce .writeDestination rl = false ↔
      gridColumnID cfg st.id = gridColumnID cfg p) ∧
    (nothingToSend cfg st p .syncReduce .writeAny rl = false ↔
      (gridRowID cfg st.id = gridRowID cfg p ∨
        gridColumnID cfg st.id = gridColumnID cfg p)) ∧
    (nothingToSend cfg st p .syncBroadcast wl .readSource = false ↔
      gridRowID cfg st.id = gridRowID cfg p) ∧
    (nothingToSend cfg st p .syncBroadcast wl .readDestination = false ↔
      gridColumnID cfg st.id = gridColumnID cfg p) ∧
    (nothingToSend cfg st p .syncBroadcast wl .readAny = false ↔
      (gridRowID cfg st.id = gridRowID cfg p ∨
        gridColumnID cfg st.id = gridColumnID cfg p)) := by
  unfold nothingToSend sharedNodesSend
  rw [hT, hcb]
  simp only [isNotCommunicationPartner, Bool.false_eq_true, if_false, hm, hM,
    if_pos, if_true, gt_iff_lt]
  refine ⟨?_, ?_, ?_, ?_, ?_, ?_⟩ <;> cases rl <;> cases wl <;>
    simp [Decidable.not_not, not_and_or, Decidable.or_iff_not_imp_left]

/-- Witness for C4: 4 hosts in a 2x2 grid, host 0 against peer 2 (same
column, different row). -/
theorem nothingToSend_table_witness :
    ((HostState.mk 0 false [[], [], [5], []] [[], [], [7], []]).transposed = false) ∧
    ((CCConfig.mk 4 1 false false [] 0).columnBlocked = false) ∧
    (0 < ((([[], [], [5], []] : List (List ℕ))).getD 2 []).length) ∧
    (0 < ((([[], [], [7], []] : List (List ℕ))).getD 2 []).length) ∧
    ((nothingToSend (CCConfig.mk 4 1 false false [] 0)
        (HostState.mk 0 false [[], [], [5], []] [[], [], [7], []]) 2
        .syncReduce .writeSource .readAny = false ↔
      gridRowID (CCConfig.mk 4 1 false false [] 0) 0 =
        gridRowID (CCConfig.mk 4 1 false false [] 0) 2) ∧
    (nothingToSend (CCConfig.mk 4 1 false false [] 0)
        (HostState.mk 0 false [[], [], [5], []] [[], [], [7], []]) 2
        .syncReduce .writeDestination .readAny = false ↔
      gridColumnID (CCConfig.mk 4 1 false false [] 0) 0 =
        gridColumnID (CCConfig.mk 4 1 false false [] 0) 2) ∧
    (nothingToSend (CCConfig.mk 4 1 false false [] 0)
        (HostState.mk 0 false [[], [], [5], []] [[], [], [7], []]) 2
        .syncReduce .writeAny .readAny = false ↔
      (gridRowID (CCConfig.mk 4 1 false false [] 0) 0 =
        gridRowID (CCConfig.mk 4 1 false false [] 0) 2 ∨
        gridColumnID (CCConfig.mk 4 1 false false [] 0) 0 =
          gridColumnID (CCConfig.mk 4 1 false false [] 0) 2)) ∧
    (nothingToSend (CCConfig.mk 4 1 false false [] 0)
        (HostState.mk 0 false [[], [], [5], []] [[], [], [7], []]) 2
        .syncBroadcast .writeAny .readSource = false ↔
      gridRowID (CCConfig.mk 4 1 false false [] 0) 0 =
        gridRowID (CCConfig.mk 4 1 false false [] 0) 2) ∧
    (nothingToSend (CCConfig.mk 4 1 false false [] 0)
        (HostState.mk 0 false [[], [], [5], []] [[], [], [7], []]) 2
        .syncBroadcast .writeAny .readDestination = false ↔
      gridColumnID (CCConfig.mk 4 1 false false [] 0) 0 =
        gridColumnID (CCConfig.mk 4 1 false false [] 0) 2) ∧
    (nothingToSend (CCConfig.mk 4 1 false false [] 0)
        (HostState.mk 0 false [[], [], [5], []] [[], [], [7], []]) 2
        .syncBroadcast .writeAny .readAny = false ↔
      (gridRowID (CCConfig.mk 4 1 false false [] 0) 0 =
        gridRowID (CCConfig.mk 4 1 false false [] 0) 2 ∨
        gridColumnID (CCConfig.mk 4 1 false false [] 0) 0 =
          gridColumnID (CCConfig.mk 4 1 false false [] 0) 2))) :=
  ⟨rfl, rfl, by decide, by decide,
    nothingToSend_table (CCConfig.mk 4 1 false false [] 0)
      (HostState.mk 0 false [[], [], [5], []] [[], [], [7], []]) 2
      rfl rfl (by decide) (by decide) .writeAny .readAny⟩

/-- C10: an empty shared-node list for peer `p` makes both predicates return
true whatever the grid position, flags or locations: the `sharedNodes[host]`
size test guards everything else. -/
theorem nothingToSend_recv_empty (cfg : CCConfig) (st : HostState) (p : ℕ)
    (sy : SyncType) (wl : WriteLocation) (rl : ReadLocation)
    (hs : ((sharedNodesSend st sy).getD p []).length = 0)
    (hr : ((sharedNodesRecv st sy).getD p []).length = 0) :
    nothingToSend cfg st p sy wl rl = true ∧
    nothingToRecv cfg st p sy wl rl = true := by
  unfold nothingToSend nothingToRecv
  rw [hs, hr]
  simp

/-- Witness for C10 at a concrete state with empty shared lists. -/
theorem nothingToSend_recv_empty_witness :
    ((sharedNodesSend (HostState.mk 0 true [[], []] [[], []])
        SyncType.syncReduce).getD 1 []).length = 0 ∧
    ((sharedNodesRecv (HostState.mk 0 true [[], []] [[], []])
        SyncType.syncReduce).getD 1 []).length = 0 ∧
    (nothingToSend (CCConfig.mk 2 1 true false [] 0)
        (HostState.mk 0 true [[], []] [[], []]) 1
        SyncType.syncReduce WriteLocation.writeAny ReadLocation.readAny = true ∧
      nothingToRecv (CCConfig.mk 2 1 true false [] 0)
        (HostState.mk 0 true [[], []] [[], []]) 1
        SyncType.syncReduce WriteLocation.writeAny ReadLocation.readAny = true) :=
  ⟨by decide, by decide,
    nothingToSend_recv_empty (CCConfig.mk 2 1 true false [] 0)
      (HostState.mk 0 true [[], []] [[], []]) 1
      SyncType.syncReduce WriteLocation.writeAny ReadLocation.readAny
      (by decide) (by decide)⟩

/-! ### The outgoing-mirror decision of `loadStatistics` (claim C2) -/

/-- Outcome of one iteration of the outgoing-mirror loop of `loadStatistics`
for a non-owned source: whether a local slot is created, whether it counted
as a dummy outgoing node, and whether the inconsistency warning was printed. -/
inductive MirrorStep where
  | node (dummy : Bool) (warned : Bool) : MirrorStep
  | skip : MirrorStep
deriving DecidableEq

/-- One iteration of the outgoing-mirror loop of `loadStatistics` (the body
deciding `createNode`).  `deg` is `numOutgoingEdges[d][i][j]`; `sameColumn`
is `gridColumnID(id + i*numHosts) == getColumnHostID(src)`; `hasBit` is
`hasIncomingEdge[0].test(getColumnIndex(src))`.  `ndebug` mirrors the C++
`NDEBUG` release flag: `assert(false)` aborts only when `ndebug = false`;
in a release build the code continues past the warning and still creates
the node.  An abort is `Except.error ()`. -/
def outgoingMirrorDecision (ndebug : Bool) (columnBlocked : Bool) (deg : ℕ)
    (sameColumn hasBit : Bool) : Except Unit MirrorStep :=
  if deg > 0 then Except.ok (MirrorStep.node false false)
  else if sameColumn && hasBit then
    if columnBlocked then Except.ok (MirrorStep.node true false)
    else if ndebug then Except.ok (MirrorStep.node false true)
    else Except.error ()
  else Except.ok MirrorStep.skip

/-- Counterexample to C2: in non-checkerboard mode the dummy-outgoing case on
a release build (`ndebug = true`) does not abort — `assert(false)` is
compiled out, so the code only warns (`gWarn`) and continues, creating the
node; the claim says the error is raised even in release builds. -/
theorem outgoingMirrorDecision_release_no_abort :
    outgoingMirrorDecision true false 0 true true =
      Except.ok (MirrorStep.node false true) ∧
    outgoingMirrorDecision true false 0 true true ≠ Except.error () :=
  ⟨rfl, fun h => Except.noConfusion h⟩

/-- C2 as amended: in non-checkerboard mode, a non-owned zero-degree source
with its incoming bit set and sharing a column with this host warns and,
in a debug build, aborts on `assert(false)`; in a release build the check
is compiled out and the node is created with the warning flag set. -/
theorem outgoingMirrorDecision_caseB (ndebug : Bool) :
    outgoingMirrorDecision ndebug false 0 true true =
      (if ndebug then Except.ok (MirrorStep.node false true)
       else Except.error ()) := by
  cases ndebug <;> rfl

/-! ### Local-graph persistence (claim C9)

The boost binary archives the two functions stream into are not part of the
repository.  Modelled from the spec: `serializeLocal` / `deserializeLocal`
"write/read `numNodes`, `R`, `C`, `local2global`, `global2local` in a
self-describing container" — the archive is a list of typed entries, each
`operator<<` appends one, each `operator>>` consumes one of the matching
type. -/

/-- One entry of the modelled boost archive. -/
inductive ArchiveEntry where
  | uintEntry : ℕ → ArchiveEntry
  | vecEntry : List ℕ → ArchiveEntry
  | mapEntry : List (ℕ × ℕ) → ArchiveEntry
deriving DecidableEq

/-- The fields of `DistGraphCartesianCut` that `boostSerializeLocalGraph`
streams: `numNodes`, `numRowHosts`, `numColumnHosts`, `localToGlobalVector`
and `globalToLocalMap` (the unordered map as its entry list). -/
structure LocalGraphFields where
  numNodes : ℕ
  numRowHosts : ℕ
  numColumnHosts : ℕ
  localToGlobalVector : List ℕ
  globalToLocalMap : List (ℕ × ℕ)
deriving DecidableEq

/-- `boostSerializeLocalGraph`: stream the unsigned ints, then the vector,
then the map, in the order of the C++ `<<` statements. -/
def boostSerializeLocalGraph (s : LocalGraphFields) : List ArchiveEntry :=
  [ArchiveEntry.uintEntry s.numNodes,
   ArchiveEntry.uintEntry s.numRowHosts,
   ArchiveEntry.uintEntry s.numColumnHosts,
   ArchiveEntry.vecEntry s.localToGlobalVector,
   ArchiveEntry.mapEntry s.globalToLocalMap]

/-- `boostDeSerializeLocalGraph`: read the same five fields back in the order
of the C++ `>>` statements; `none` when the archive does not hold them. -/
def boostDeSerializeLocalGraph :
    List ArchiveEntry → Option (LocalGraphFields × List ArchiveEntry)
  | ArchiveEntry.uintEntry a :: ArchiveEntry.uintEntry b ::
      ArchiveEntry.uintEntry c :: ArchiveEntry.vecEntry v ::
      ArchiveEntry.mapEntry m :: rest =>
    some (LocalGraphFields.mk a b c v m, rest)
  | _ => none

/-- C9: deserialization is a left inverse of serialization — reading back a
serialized local graph restores `numNodes`, `numRowHosts`, `numColumnHosts`,
`localToGlobalVector` and `globalToLocalMap` structurally equal to the
originals, leaving any following archive content in place. -/
theorem boostSerialize_roundTrip (s : LocalGraphFields)
    (rest : List ArchiveEntry) :
    boostDeSerializeLocalGraph (boostSerializeLocalGraph s ++ rest) =
      some (s, rest) := rfl

/-! ### Consequences of `Contiguous` -/

theorem blockRange_le (cfg : CCConfig) (hc : Contiguous cfg) (b : ℕ)
    (hb : b < cfg.numVirtualHosts) :
    (blockRange cfg b).1 ≤ (blockRange cfg b).2 :=
  (hc.2.1 b hb).2

theorem blockRange_mono (cfg : CCConfig) (hc : Contiguous cfg) :
    ∀ b' b, b < b' → b' < cfg.numVirtualHosts →
      (blockRange cfg b).2 ≤ (blockRange cfg b').1 := by
  intro b'
  induction b' with
  | zero => omega
  | succ n ih =>
    intro b hb hn
    have hstart : (blockRange cfg (n + 1)).1 = (blockRange cfg n).2 := by
      have h := (hc.2.1 (n + 1) hn).1
      simpa using h
    rcases Nat.lt_or_ge b n with h | h
    · have h1 := ih b h (by omega)
      have h2 := (hc.2.1 n (by omega)).2
      omega
    · have : b = n := by omega
      subst this
      omega

theorem mem_blockIds (cfg : CCConfig) (hc : Contiguous cfg) (b : ℕ)
    (hb : b < cfg.numVirtualHosts) (x : ℕ) :
    x ∈ blockIds cfg b ↔
      (blockRange cfg b).1 ≤ x ∧ x < (blockRange cfg b).2 := by
  have hle := blockRange_le cfg hc b hb
  unfold blockIds
  rw [List.mem_range']
  constructor
  · rintro ⟨i, hi, rfl⟩; omega
  · intro ⟨h1, h2⟩; exact ⟨x - (blockRange cfg b).1, by omega, by omega⟩

theorem blockIds_disjoint (cfg : CCConfig) (hc : Contiguous cfg)
    (b b' : ℕ) (hb : b < cfg.numVirtualHosts) (hb' : b' < cfg.numVirtualHosts)
    (hne : b ≠ b') : List.Disjoint (blockIds cfg b) (blockIds cfg b') := by
  intro x hx hx'
  rw [mem_blockIds cfg hc b hb] at hx
  rw [mem_blockIds cfg hc b' hb'] at hx'
  rcases Nat.lt_or_ge b b' with h | h
  · have := blockRange_mono cfg hc b' b h hb'
    omega
  · have hlt : b' < b := by omega
    have := blockRange_mono cfg hc b b' hlt hb
    omega

theorem exists_block (cfg : CCConfig) (hc : Contiguous cfg)
    (hnv : 0 < cfg.numVirtualHosts) (gid : ℕ)
    (hgid : gid < cfg.numGlobalNodes) :
    ∃ v, v < cfg.numVirtualHosts ∧
      (blockRange cfg v).1 ≤ gid ∧ gid < (blockRange cfg v).2 := by
  have hlast : gid < (blockRange cfg (cfg.numVirtualHosts - 1)).2 := by
    rw [hc.2.2 hnv]; exact hgid
  classical
  have hex : ∃ v, gid < (blockRange cfg v).2 := ⟨_, hlast⟩
  have hvle : Nat.find hex ≤ cfg.numVirtualHosts - 1 := Nat.find_le hlast
  refine ⟨Nat.find hex, by omega, ?_, Nat.find_spec hex⟩
  rcases Nat.eq_zero_or_pos (Nat.find hex) with h0 | h0
  · have hstart := (hc.2.1 0 hnv).1
    rw [if_pos rfl] at hstart
    rw [h0]
    omega
  · have hmin := Nat.find_min hex (m := Nat.find hex - 1) (by omega)
    push_neg at hmin
    have hvlt : Nat.find hex < cfg.numVirtualHosts := by omega
    have hstart := (hc.2.1 (Nat.find hex) hvlt).1
    rw [if_neg (by omega)] at hstart
    omega

theorem findHostAux_eq (cfg : CCConfig) (gid v : ℕ) :
    ∀ fuel h, h ≤ v → v < h + fuel →
      ((blockRange cfg v).1 ≤ gid ∧ gid < (blockRange cfg v).2) →
      (∀ k, h ≤ k → k < v →
        ¬((blockRange cfg k).1 ≤ gid ∧ gid < (blockRange cfg k).2)) →
      findHostAux cfg gid fuel h = v := by
  intro fuel
  induction fuel with
  | zero => omega
  | succ n ih =>
    intro h hle hlt hin hnone
    rcases Nat.eq_or_lt_of_le hle with heq | hlt'
    · subst heq
      unfold findHostAux
      rw [if_pos hin]
    · unfold findHostAux
      rw [if_neg (hnone h le_rfl hlt')]
      exact ih (h + 1) hlt' (by omega) hin fun k hk1 hk2 =>
        hnone k (by omega) hk2

/-- A node's owner as computed by `getHostID` is the block that holds it. -/
theorem getHostID_eq (cfg : CCConfig) (hc : Contiguous cfg) (v : ℕ)
    (hv : v < cfg.numVirtualHosts) (gid : ℕ)
    (hin : (blockRange cfg v).1 ≤ gid ∧ gid < (blockRange cfg v).2) :
    getHostID cfg gid = v := by
  unfold getHostID
  refine findHostAux_eq cfg gid v cfg.numVirtualHosts 0 (Nat.zero_le v)
    (by omega) hin fun k _ hk => ?_
  intro ⟨h1, h2⟩
  have := blockRange_mono cfg hc v k hk hv
  omega

/-! ### `getColumnIndex` versus the spec's concatenation offset (claim C8) -/

/-- Modelled from the spec (glossary, "column index"): the concatenation, in
ascending block order, of all `gid2host` ranges whose column peer is `h`. -/
def columnBlocksConcat (cfg : CCConfig) (h : ℕ) : List ℕ :=
  (((List.range cfg.numVirtualHosts).filter
    (fun b => decide (getColumnHostIDOfBlock cfg b = h))).map
      (blockIds cfg)).flatten

/-- Modelled from the spec: the column index of `gid` as its position within
`columnBlocksConcat` for its own column peer. -/
def specColumnIndex (cfg : CCConfig) (gid : ℕ) : ℕ :=
  List.indexOf gid (columnBlocksConcat cfg (getColumnHostID cfg gid))

theorem indexOf_append_not_mem (x : ℕ) (l1 l2 : List ℕ) (h : x ∉ l1) :
    List.indexOf x (l1 ++ l2) = l1.length + List.indexOf x l2 := by
  induction l1 with
  | nil => simp
  | cons a l ih =>
    have hne : (a == x) = false := by
      simp only [beq_eq_false_iff_ne, ne_eq]
      intro hax; exact h (hax ▸ List.mem_cons_self a l)
    rw [List.cons_append, List.indexOf_cons, hne]
    simp only [cond_false]
    rw [ih (fun hx => h (List.mem_cons_of_mem a hx))]
    simp only [List.length_cons]
    omega

theorem indexOf_append_mem (x : ℕ) (l1 l2 : List ℕ) (h : x ∈ l1) :
    List.indexOf x (l1 ++ l2) = List.indexOf x l1 := by
  induction l1 with
  | nil => simp at h
  | cons a l ih =>
    rw [List.cons_append, List.indexOf_cons, List.indexOf_cons]
    cases hax : (a == x)
    · simp only [cond_false]
      rcases List.mem_cons.mp h with rfl | hx
      · simp at hax
      · rw [ih hx]
    · simp only [cond_true]

theorem indexOf_range' (x : ℕ) : ∀ (n s : ℕ), s ≤ x → x < s + n →
    List.indexOf x (List.range' s n) = x - s := by
  intro n
  induction n with
  | zero => omega
  | succ m ih =>
    intro s h1 h2
    rw [List.range'_succ, List.indexOf_cons]
    by_cases hs : s = x
    · subst hs; simp
    · have : (s == x) = false := by simp [hs]
      rw [this]
      simp only [cond_false]
      rw [ih (s + 1) (by omega) (by omega)]
      omega

theorem colIndexGo_concat (cfg : CCConfig) (gid h v : ℕ)
    (hlt : gid < (blockRange cfg v).2)
    (hpeer : getColumnHostIDOfBlock cfg v = h) :
    ∀ bs : List ℕ, (∀ b ∈ bs, (blockRange cfg b).2 ≤ gid) →
      colIndexGo cfg gid h (bs ++ [v]) =
        ((bs.filter (fun b => decide (getColumnHostIDOfBlock cfg b = h))).map
          (fun b => (blockRange cfg b).2 - (blockRange cfg b).1)).sum +
          (gid - (blockRange cfg v).1) := by
  intro bs
  induction bs with
  | nil =>
    intro _
    simp only [List.nil_append]
    unfold colIndexGo
    rw [if_pos hpeer, if_pos hlt]
    simp
  | cons b bs ih =>
    intro hall
    have hble : (blockRange cfg b).2 ≤ gid := hall b (List.mem_cons_self b bs)
    rw [List.cons_append]
    unfold colIndexGo
    by_cases hpb : getColumnHostIDOfBlock cfg b = h
    · rw [if_pos hpb, if_neg (by omega),
        ih (fun b' hb' => hall b' (List.mem_cons_of_mem b hb')),
        List.filter_cons_of_pos (by simp [hpb]), List.map_cons, List.sum_cons]
      omega
    · rw [if_neg hpb, ih (fun b' hb' => hall b' (List.mem_cons_of_mem b hb')),
        List.filter_cons_of_neg (by simp [hpb])]

/-- C8 as amended: with `DecomposeFactor = 1` (every block is a real host's),
`getColumnIndex gid` is the offset of `gid` within the concatenation, in
ascending block order, of all `gid2host` ranges sharing `gid`'s column peer. -/
theorem getColumnIndex_eq_specColumnIndex (cfg : CCConfig)
    (hc : Contiguous cfg) (hD : cfg.decomposeFactor = 1)
    (hH : 1 ≤ cfg.numHosts) (gid : ℕ) (hgid : gid < cfg.numGlobalNodes) :
    getColumnIndex cfg gid = specColumnIndex cfg gid := by
  have hnv : cfg.numVirtualHosts = cfg.numHosts := by
    unfold CCConfig.numVirtualHosts; rw [hD, Nat.mul_one]
  have hnvpos : 0 < cfg.numVirtualHosts := by omega
  obtain ⟨v, hv, hin⟩ := exists_block cfg hc hnvpos gid hgid
  have hhost : getHostID cfg gid = v := getHostID_eq cfg hc v hv gid hin
  have hblock : getBlockID cfg gid = v := by
    unfold getBlockID; rw [hhost, Nat.mod_eq_of_lt (by omega)]
  set h := getColumnHostID cfg gid with hh
  have hpeer : getColumnHostIDOfBlock cfg v = h := by
    rw [hh]; unfold getColumnHostID; rw [hblock]
  -- the C++ loop side
  have hgone : ∀ b ∈ List.range v, (blockRange cfg b).2 ≤ gid := by
    intro b hb
    rw [List.mem_range] at hb
    have := blockRange_mono cfg hc v b hb hv
    omega
  have lhs_eq : getColumnIndex cfg gid =
      (((List.range v).filter
        (fun b => decide (getColumnHostIDOfBlock cfg b = h))).map
          (fun b => (blockRange cfg b).2 - (blockRange cfg b).1)).sum +
        (gid - (blockRange cfg v).1) := by
    unfold getColumnIndex
    rw [hblock, hh, List.range_succ]
    exact colIndexGo_concat cfg gid h v hin.2 hpeer (List.range v) hgone
  -- the concatenation side
  have hsplit : List.range cfg.numVirtualHosts =
      (List.range v ++ [v]) ++
        List.range' (v + 1) (cfg.numVirtualHosts - (v + 1)) := by
    have happ := List.range'_append 0 (v + 1) (cfg.numVirtualHosts - (v + 1)) 1
    simp only [Nat.zero_add, Nat.one_mul] at happ
    rw [← List.range_succ, List.range_eq_range', List.range_eq_range', happ]
    congr 1
    omega
  have rhs_eq : specColumnIndex cfg gid = getColumnIndex cfg gid := by
    unfold specColumnIndex columnBlocksConcat
    rw [← hh, hsplit, List.filter_append, List.filter_append,
      List.map_append, List.map_append, List.flatten_append,
      List.flatten_append]
    have hfv : List.filter
        (fun b => decide (getColumnHostIDOfBlock cfg b = h)) [v] = [v] := by
      simp [hpeer]
    rw [hfv]
    have hnm1 : gid ∉
        (((List.range v).filter
          (fun b => decide (getColumnHostIDOfBlock cfg b = h))).map
            (blockIds cfg)).flatten := by
      intro hmem
      rw [List.mem_flatten] at hmem
      obtain ⟨l, hl, hgl⟩ := hmem
      rw [List.mem_map] at hl
      obtain ⟨b, hbf, rfl⟩ := hl
      have hbv : b < v := List.mem_range.mp (List.mem_filter.mp hbf).1
      rw [mem_blockIds cfg hc b (by omega)] at hgl
      have := blockRange_mono cfg hc v b hbv hv
      omega
    have hmemv : gid ∈ (List.map (blockIds cfg) [v]).flatten := by
      simp only [List.map_cons, List.map_nil, List.flatten_cons,
        List.flatten_nil, List.append_nil]
      rw [mem_blockIds cfg hc v hv]
      exact hin
    rw [indexOf_append_mem gid _ _ (by
      rw [List.mem_append]; exact Or.inr hmemv)]
    rw [indexOf_append_not_mem gid _ _ hnm1]
    rw [lhs_eq]
    congr 1
    · rw [List.length_flatten, List.map_map]
      congr 1
      apply List.map_congr_left
      intro b hbf
      have hbv : b < v := List.mem_range.mp (List.mem_filter.mp hbf).1
      simp only [Function.comp_apply]
      unfold blockIds
      rw [List.length_range']
    · simp only [List.map_cons, List.map_nil, List.flatten_cons,
        List.flatten_nil, List.append_nil]
      unfold blockIds
      rw [indexOf_range' gid _ _ hin.1 (by
        have := blockRange_le cfg hc v hv
        omega)]
  omega

/-- Witness for the amended C8: two hosts, no decomposition, four nodes split
`[0,2) | [2,4)`, evaluated at `gid = 3`. -/
theorem getColumnIndex_eq_specColumnIndex_witness :
    Contiguous (CCConfig.mk 2 1 false false [(0, 2), (2, 4)] 4) ∧
    (CCConfig.mk 2 1 false false [(0, 2), (2, 4)] 4).decomposeFactor = 1 ∧
    1 ≤ (CCConfig.mk 2 1 false false [(0, 2), (2, 4)] 4).numHosts ∧
    (3 : ℕ) < (CCConfig.mk 2 1 false false [(0, 2), (2, 4)] 4).numGlobalNodes ∧
    getColumnIndex (CCConfig.mk 2 1 false false [(0, 2), (2, 4)] 4) 3 =
      specColumnIndex (CCConfig.mk 2 1 false false [(0, 2), (2, 4)] 4) 3 :=
  ⟨by decide, rfl, by decide, by decide,
    getColumnIndex_eq_specColumnIndex
      (CCConfig.mk 2 1 false false [(0, 2), (2, 4)] 4)
      (by decide) rfl (by decide) 3 (by decide)⟩

/-- Counterexample to C8 as stated: with `DecomposeFactor = 2` on one host
(blocks `[0,2)` and `[2,4)`, both with column peer 0), the loop of
`getColumnIndex` stops at `blockID = getHostID(gid) % numHosts = 0` and
returns 2 for `gid = 3`, while the offset of 3 in the concatenation
`[0,1,2,3]` of both ranges is 3. -/
theorem getColumnIndex_decompose_counterexample :
    Contiguous (CCConfig.mk 1 2 false false [(0, 2), (2, 4)] 4) ∧
    getColumnIndex (CCConfig.mk 1 2 false false [(0, 2), (2, 4)] 4) 3 = 2 ∧
    specColumnIndex (CCConfig.mk 1 2 false false [(0, 2), (2, 4)] 4) 3 = 3 ∧
    getColumnIndex (CCConfig.mk 1 2 false false [(0, 2), (2, 4)] 4) 3 ≠
      specColumnIndex (CCConfig.mk 1 2 false false [(0, 2), (2, 4)] 4) 3 := by
  refine ⟨by decide, by decide, by decide, by decide⟩

/-! ### The node-layout portion of `loadStatistics` (claims C5, C6)

After the metadata exchange, `loadStatistics` lays out the local id space in
three passes: owned masters, outgoing mirrors (with the dummy-outgoing
case), incoming mirrors.  `numOutgoingEdges` is the merged degree table
(`outDeg d i` is the vector for the virtual host at column `i` of the row
of `id + d*numHosts`), `hasIn` the OR-merged incoming bitset
`hasIncomingEdge[0]`, both valued as after the exchange.  Asserts follow
release semantics (compiled out); `outgoingMirrorDecision` settles the
debug/abort question separately. -/

/-- The mutable state the layout loops of `loadStatistics` thread through:
`localToGlobalVector`, `numNodes`, `numEdges`, `prefixSumOfEdges` and
`dummyOutgoingNodes` (the `globalToLocalMap` insertions mirror the vector
pushes and are recoverable from the vector, so the map is not duplicated
here). -/
structure LayoutState where
  localToGlobalVector : List ℕ
  numNodes : ℕ
  numEdges : ℕ
  prefixSumOfEdges : List ℕ
  dummyOutgoingNodes : ℕ
deriving DecidableEq

/-- State at `dummyOutgoingNodes = 0; numNodes = 0; numEdges = 0;`. -/
def initLayout : LayoutState :=
  LayoutState.mk [] 0 0 [] 0

/-- One node creation: add `deg` to `numEdges`, append the id, bump
`numNodes`, push the running `numEdges` onto `prefixSumOfEdges` — the
statement block repeated at each `createNode` site of `loadStatistics`. -/
def LayoutState.pushNode (st : LayoutState) (gid deg : ℕ) : LayoutState :=
  { st with
    localToGlobalVector := st.localToGlobalVector ++ [gid]
    numNodes := st.numNodes + 1
    numEdges := st.numEdges + deg
    prefixSumOfEdges := st.prefixSumOfEdges ++ [st.numEdges + deg] }

/-- Body of the first layout loop of `loadStatistics` (the owned masters;
every slot of the own degree vector creates a node) at slot `j` of range
`d`: unconditional
node creation for the owned source `start + j`. -/
def phase1Push (cfg : CCConfig) (id : ℕ) (outDeg : ℕ → ℕ → List ℕ)
    (d : ℕ) (st : LayoutState) (j : ℕ) : LayoutState :=
  st.pushNode ((blockRange cfg (id + d * cfg.numHosts)).1 + j)
    ((outDeg d (gridColumnID cfg id)).getD j 0)

def phase1 (cfg : CCConfig) (id : ℕ) (outDeg : ℕ → ℕ → List ℕ)
    (st : LayoutState) : LayoutState :=
  (List.range cfg.decomposeFactor).foldl (fun st d =>
    (List.range (outDeg d (gridColumnID cfg id)).length).foldl
      (phase1Push cfg id outDeg d) st) st

/-- Body of the second layout loop of `loadStatistics` (outgoing mirrors
over the other hosts of each decomposed grid row) at slot `j` of the block
at column `i` of
the row of `id + d*numHosts`: a node for a positive merged degree, a node
(counted dummy under checkerboard mode, warned otherwise) for the
dummy-outgoing case, nothing else. -/
def phase2Push (cfg : CCConfig) (id : ℕ) (outDeg : ℕ → ℕ → List ℕ)
    (hasIn : ℕ → Bool) (d i : ℕ) (st : LayoutState) (j : ℕ) : LayoutState :=
  if (outDeg d i).getD j 0 > 0 then
    st.pushNode
      ((blockRange cfg (gridRowID cfg (id + d * cfg.numHosts) *
        cfg.numColumnHosts + i)).1 + j) ((outDeg d i).getD j 0)
  else if gridColumnID cfg (id + i * cfg.numHosts) =
      getColumnHostID cfg
        ((blockRange cfg (gridRowID cfg (id + d * cfg.numHosts) *
          cfg.numColumnHosts + i)).1 + j) ∧
      hasIn (getColumnIndex cfg
        ((blockRange cfg (gridRowID cfg (id + d * cfg.numHosts) *
          cfg.numColumnHosts + i)).1 + j)) = true then
    if cfg.columnBlocked then
      { st.pushNode
          ((blockRange cfg (gridRowID cfg (id + d * cfg.numHosts) *
            cfg.numColumnHosts + i)).1 + j) 0 with
        dummyOutgoingNodes := st.dummyOutgoingNodes + 1 }
    else st.pushNode
      ((blockRange cfg (gridRowID cfg (id + d * cfg.numHosts) *
        cfg.numColumnHosts + i)).1 + j) 0
  else st

/-- Column-slot iteration of the second layout loop: skip this host's own
slot, else walk the block's degree vector. -/
def phase2Col (cfg : CCConfig) (id : ℕ) (outDeg : ℕ → ℕ → List ℕ)
    (hasIn : ℕ → Bool) (d : ℕ) (st : LayoutState) (i : ℕ) : LayoutState :=
  if virtual2RealHost cfg
      (gridRowID cfg (id + d * cfg.numHosts) * cfg.numColumnHosts + i) =
      id then st
  else
    (List.range (outDeg d i).length).foldl
      (phase2Push cfg id outDeg hasIn d i) st

def phase2 (cfg : CCConfig) (id : ℕ) (outDeg : ℕ → ℕ → List ℕ)
    (hasIn : ℕ → Bool) (st : LayoutState) : LayoutState :=
  (List.range cfg.decomposeFactor).foldl (fun st d =>
    (List.range cfg.numColumnHosts).foldl
      (phase2Col cfg id outDeg hasIn d) st) st

/-- The checkerboard skip of the third loop: `hostID_virtual` lies in the
grid row of one of this host's decomposed virtual ids. -/
def inOwnRowBlocks (cfg : CCConfig) (id b : ℕ) : Bool :=
  (List.range cfg.decomposeFactor).any (fun d =>
    let leader := gridRowID cfg (id + d * cfg.numHosts) * cfg.numColumnHosts
    decide (leader ≤ b) && decide (b < leader + cfg.numColumnHosts))

/-- The virtual host iteration `i` of the third layout loop visits
(`hostID_virtual`): the blocked column under checkerboard mode, this host's
grid column otherwise. -/
def phase3Host (cfg : CCConfig) (id i : ℕ) : ℕ :=
  if cfg.columnBlocked then gridColumnID cfg id * cfg.numRowHosts + i
  else i * cfg.numColumnHosts + gridColumnID cfg id

/-- Body of the third layout loop of `loadStatistics` (the incoming mirrors
over the hosts of this host's grid column, materializing every id whose
merged incoming bit is set) at offset `j` of the block of
`phase3Host id i`: a flat node when the merged incoming bit is set. -/
def phase3Push (cfg : CCConfig) (id : ℕ) (hasIn : ℕ → Bool) (i : ℕ)
    (st : LayoutState) (j : ℕ) : LayoutState :=
  if hasIn (getColumnIndex cfg
      ((blockRange cfg (phase3Host cfg id i)).1 + j)) = true then
    st.pushNode ((blockRange cfg (phase3Host cfg id i)).1 + j) 0
  else st

/-- Row iteration of the third layout loop, with its two skips. -/
def phase3Step (cfg : CCConfig) (id : ℕ) (hasIn : ℕ → Bool)
    (st : LayoutState) (i : ℕ) : LayoutState :=
  if virtual2RealHost cfg (phase3Host cfg id i) = id then st
  else if cfg.columnBlocked && inOwnRowBlocks cfg id (phase3Host cfg id i)
    then st
  else
    (List.range ((blockRange cfg (phase3Host cfg id i)).2 -
        (blockRange cfg (phase3Host cfg id i)).1)).foldl
      (phase3Push cfg id hasIn i) st

def phase3 (cfg : CCConfig) (id : ℕ) (hasIn : ℕ → Bool)
    (st : LayoutState) : LayoutState :=
  (List.range cfg.numRowHosts).foldl (phase3Step cfg id hasIn) st

/-- The three layout loops of `loadStatistics` in order, from the reset
state. -/
def loadStatisticsLayout (cfg : CCConfig) (id : ℕ)
    (outDeg : ℕ → ℕ → List ℕ) (hasIn : ℕ → Bool) : LayoutState :=
  phase3 cfg id hasIn (phase2 cfg id outDeg hasIn
    (phase1 cfg id outDeg initLayout))

/-- `numOwned` as `loadStatistics` computes it: the total size of this
host's `DecomposeFactor` ranges. -/
def numOwned (cfg : CCConfig) (id : ℕ) : ℕ :=
  ((List.range cfg.decomposeFactor).map (fun d =>
    (blockRange cfg (id + d * cfg.numHosts)).2 -
      (blockRange cfg (id + d * cfg.numHosts)).1)).sum

/-- The CSR index array the constructor materializes from the layout:
`fixEndEdge n prefixSumOfEdges[n]` sets each node's end offset over the
implicit start 0, so the index array is `0 :: prefixSumOfEdges`. -/
def csrIndexArray (st : LayoutState) : List ℕ := 0 :: st.prefixSumOfEdges

/-! ### The inspection pass feeding the layout (for the concrete scenario)

The first pass over the edge shard (`loadStatistics` lines before the
exchange) in functional form over an explicit edge list, followed by the
row-wise exchange and OR-merge of the incoming bitsets. -/

/-- Does real host `q` read source `s` — is `s` in one of `q`'s
`DecomposeFactor` ranges (the iteration space of the inspection loop)? -/
def readsSrc (cfg : CCConfig) (q s : ℕ) : Bool :=
  (List.range cfg.decomposeFactor).any (fun d =>
    decide ((blockRange cfg (q + d * cfg.numHosts)).1 ≤ s) &&
    decide (s < (blockRange cfg (q + d * cfg.numHosts)).2))

/-- `numOutgoingEdges[d][i]` as host `id` computes it in the inspection
loop: slot `j` counts the edges from source `start + j` whose destination
has column host `i`. -/
def inspectOutDeg (cfg : CCConfig) (edges : List (ℕ × ℕ)) (id d i : ℕ) :
    List ℕ :=
  let s := (blockRange cfg (id + d * cfg.numHosts)).1
  let e := (blockRange cfg (id + d * cfg.numHosts)).2
  (List.range (e - s)).map (fun j =>
    (edges.filter (fun ed => decide (ed.1 = s + j) &&
      decide (getColumnHostID cfg ed.2 = i))).length)

/-- Bit `idx` of `hasIncomingEdge[i]` as host `q` computes it locally: some
edge read by `q` ends at a destination with column host `i` and column
index `idx`. -/
def localHasIn (cfg : CCConfig) (edges : List (ℕ × ℕ)) (q i idx : ℕ) :
    Bool :=
  edges.any (fun ed => readsSrc cfg q ed.1 &&
    decide (getColumnHostID cfg ed.2 = i) &&
    decide (getColumnIndex cfg ed.2 = idx))

/-- Bit `idx` of the merged `hasIncomingEdge[0]` on host `id` after the
row-wise exchange and the `bitwise_or` loop: the OR over all hosts of
`id`'s grid row of their local bitset for column peer `gridColumnID id`. -/
def mergedHasIn (cfg : CCConfig) (edges : List (ℕ × ℕ)) (id idx : ℕ) :
    Bool :=
  (List.range cfg.numColumnHosts).any (fun j =>
    localHasIn cfg edges (gridRowID cfg id * cfg.numColumnHosts + j)
      (gridColumnID cfg id) idx)

/-! ### `fillMirrorNodes` -/

/-- Append `xs` to `mirrorNodes[h]` (`mirrorNodes[hostID_real].push_back`
over a run of ids). -/
def appendSharedAt (mn : List (List ℕ)) (h : ℕ) (xs : List ℕ) :
    List (List ℕ) :=
  mn.set h (mn.getD h [] ++ xs)

/-- `fillMirrorNodes`: outgoing mirrors from the decomposed grid rows, then
incoming mirrors from the grid column (blocked under checkerboard mode);
`isLoc` is the `globalToLocalMap.find(...) != end` test. -/
def fillMirrorNodes (cfg : CCConfig) (id : ℕ) (isLoc : ℕ → Bool) :
    List (List ℕ) :=
  let outgoing := (List.range cfg.decomposeFactor).foldl (fun mn d =>
    (List.range cfg.numColumnHosts).foldl (fun mn i =>
      let hv := gridRowID cfg (id + d * cfg.numHosts) * cfg.numColumnHosts + i
      if hv = id + d * cfg.numHosts then mn
      else
        let s := (blockRange cfg hv).1
        let e := (blockRange cfg hv).2
        appendSharedAt mn (virtual2RealHost cfg hv)
          (((List.range (e - s)).map (fun j => s + j)).filter isLoc)) mn)
    (List.replicate cfg.numHosts [])
  (List.range cfg.decomposeFactor).foldl (fun mn d =>
    let leader := gridRowID cfg (id + d * cfg.numHosts) * cfg.numColumnHosts
    (List.range cfg.numRowHosts).foldl (fun mn i =>
      let hv := if cfg.columnBlocked then
          gridColumnID cfg (id + d * cfg.numHosts) * cfg.numRowHosts + i
        else i * cfg.numColumnHosts + gridColumnID cfg (id + d * cfg.numHosts)
      if hv = id + d * cfg.numHosts then mn
      else if cfg.columnBlocked &&
          (decide (leader ≤ hv) && decide (hv < leader + cfg.numColumnHosts))
        then mn
      else
        let s := (blockRange cfg hv).1
        let e := (blockRange cfg hv).2
        appendSharedAt mn (virtual2RealHost cfg hv)
          (((List.range (e - s)).map (fun j => s + j)).filter isLoc)) mn)
    outgoing

/-! ### Claim C6: the tiny-chain scenario -/

/-- Configuration of the tiny-chain scenario: one host, no decomposition,
four nodes in one block. -/
def chainCfg : CCConfig := CCConfig.mk 1 1 false false [(0, 4)] 4

/-- Edge list of the tiny chain `0 → 1 → 2 → 3`. -/
def chainEdges : List (ℕ × ℕ) := [(0, 1), (1, 2), (2, 3)]

/-- Layout state after `loadStatistics` on the single host of the chain
scenario, fed by its own inspection pass. -/
def chainLayout : LayoutState :=
  loadStatisticsLayout chainCfg 0 (inspectOutDeg chainCfg chainEdges 0)
    (mergedHasIn chainCfg chainEdges 0)

/-- C6: on the 4-node chain with one host and no decomposition, construction
yields `numNodes = 4`, `numOwned = 4`, `numEdges = 3`, the CSR index array
`[0, 1, 2, 3, 3]` (length `numNodes + 1`, last entry `numEdges`), and an
empty mirror list for every host. -/
theorem chain_scenario :
    chainLayout.numNodes = 4 ∧
    numOwned chainCfg 0 = 4 ∧
    chainLayout.numEdges = 3 ∧
    csrIndexArray chainLayout = [0, 1, 2, 3, 3] ∧
    (csrIndexArray chainLayout).length = chainLayout.numNodes + 1 ∧
    (csrIndexArray chainLayout).getD chainLayout.numNodes 0 =
      chainLayout.numEdges ∧
    fillMirrorNodes chainCfg 0
      (fun gid => chainLayout.localToGlobalVector.contains gid) = [[]] := by
  decide

/-! ### Infrastructure for the duplicate-freedom proof (claim C5) -/

theorem foldl_preserves {α : Type} (f : LayoutState → α → LayoutState)
    (P : LayoutState → Prop) (h : ∀ st a, P st → P (f st a)) :
    ∀ (l : List α) (st : LayoutState), P st → P (l.foldl f st) := by
  intro l
  induction l with
  | nil => intro st hst; exact hst
  | cons a l ih => intro st hst; exact ih (f st a) (h st a hst)

theorem foldl_l2g_sub {α : Type} (f : LayoutState → α → LayoutState)
    (G : α → List ℕ) :
    ∀ js : List α,
      (∀ st a, a ∈ js → ∃ l, (f st a).localToGlobalVector =
        st.localToGlobalVector ++ l ∧ l.Sublist (G a)) →
      ∀ st, ∃ l, (js.foldl f st).localToGlobalVector =
        st.localToGlobalVector ++ l ∧ l.Sublist ((js.map G).flatten) := by
  intro js
  induction js with
  | nil => intro _ st; exact ⟨[], by simp, by simp⟩
  | cons a js ih =>
    intro h st
    obtain ⟨l1, hl1, hs1⟩ := h st a (List.mem_cons_self a js)
    obtain ⟨l2, hl2, hs2⟩ :=
      ih (fun st b hb => h st b (List.mem_cons_of_mem a hb)) (f st a)
    refine ⟨l1 ++ l2, ?_, ?_⟩
    · rw [List.foldl_cons, hl2, hl1, List.append_assoc]
    · simp only [List.map_cons, List.flatten_cons]
      exact List.Sublist.append hs1 hs2

theorem flatten_map_singleton {α : Type} (g : ℕ → α) (l : List ℕ) :
    (l.map (fun j => [g j])).flatten = l.map g := by
  induction l with
  | nil => rfl
  | cons a l ih => simp [ih]

theorem flatten_map_flatten {α : Type} (f : ℕ → List (List α)) (l : List ℕ) :
    (l.map (fun d => (f d).flatten)).flatten = ((l.map f).flatten).flatten := by
  induction l with
  | nil => rfl
  | cons a l ih => simp [ih, List.flatten_append]

theorem pairwise_range_of_lt {R : ℕ → ℕ → Prop} :
    ∀ n : ℕ, (∀ i j, i < j → j < n → R i j) →
      List.Pairwise R (List.range n) := by
  intro n
  induction n with
  | zero => intro _; simp
  | succ m ih =>
    intro h
    rw [List.range_succ, List.pairwise_append]
    refine ⟨ih (fun i j hij hj => h i j hij (by omega)), by simp, ?_⟩
    intro a ha b hb
    rw [List.mem_range] at ha
    simp only [List.mem_singleton] at hb
    exact h a b (by omega) (by omega)

/-! ### Grid arithmetic facts used by the layout proofs -/

theorem numColumnHosts_pos (cfg : CCConfig) (hH : 1 ≤ cfg.numHosts) :
    1 ≤ cfg.numColumnHosts := by
  have hbpos := baseColumnHosts_pos cfg hH
  have hdvd := baseColumnHosts_dvd cfg hH
  unfold CCConfig.numColumnHosts
  cases cfg.moreColumnHosts
  · simpa using hbpos
  · simp only [reduceIte]
    exact Nat.div_pos (Nat.le_of_dvd (by omega) hdvd) hbpos

theorem numColumnHosts_dvd (cfg : CCConfig) (hH : 1 ≤ cfg.numHosts) :
    cfg.numColumnHosts ∣ cfg.numHosts := by
  have hdvd := baseColumnHosts_dvd cfg hH
  unfold CCConfig.numColumnHosts
  cases cfg.moreColumnHosts
  · simpa using hdvd
  · simp only [reduceIte]
    exact ⟨cfg.baseColumnHosts, (Nat.div_mul_cancel hdvd).symm⟩

theorem numRowHosts_eq (cfg : CCConfig) (hH : 1 ≤ cfg.numHosts) :
    cfg.numRowHosts =
      cfg.numHosts / cfg.numColumnHosts * cfg.decomposeFactor := by
  have hdvd := baseColumnHosts_dvd cfg hH
  unfold CCConfig.numRowHosts CCConfig.numColumnHosts
  cases cfg.moreColumnHosts
  · simp
  · simp only [reduceIte]
    rw [Nat.div_div_self hdvd (by omega)]

theorem numRow_mul_numCol (cfg : CCConfig) (hH : 1 ≤ cfg.numHosts) :
    cfg.numRowHosts * cfg.numColumnHosts =
      cfg.numHosts * cfg.decomposeFactor :=
  (factorizeHosts_correct cfg hH).2.1

theorem rowOf_virtual (cfg : CCConfig) (hH : 1 ≤ cfg.numHosts)
    (id d : ℕ) :
    gridRowID cfg (id + d * cfg.numHosts) =
      id / cfg.numColumnHosts +
        d * (cfg.numHosts / cfg.numColumnHosts) := by
  have hCpos := numColumnHosts_pos cfg hH
  have hdvd := numColumnHosts_dvd cfg hH
  have hstep : id + d * cfg.numHosts =
      id + (d * (cfg.numHosts / cfg.numColumnHosts)) * cfg.numColumnHosts := by
    rw [Nat.mul_assoc, Nat.div_mul_cancel hdvd]
  unfold gridRowID
  rw [hstep, Nat.add_mul_div_right _ _ hCpos]

theorem colOf_virtual (cfg : CCConfig) (hH : 1 ≤ cfg.numHosts)
    (id i : ℕ) :
    gridColumnID cfg (id + i * cfg.numHosts) = gridColumnID cfg id := by
  have hdvd := numColumnHosts_dvd cfg hH
  have hstep : id + i * cfg.numHosts =
      id + (i * (cfg.numHosts / cfg.numColumnHosts)) * cfg.numColumnHosts := by
    rw [Nat.mul_assoc, Nat.div_mul_cancel hdvd]
  unfold gridColumnID
  rw [hstep, Nat.add_mul_mod_self_right]

theorem div_lt_of_lt_numHosts (cfg : CCConfig) (hH : 1 ≤ cfg.numHosts)
    (id : ℕ) (hid : id < cfg.numHosts) :
    id / cfg.numColumnHosts < cfg.numHosts / cfg.numColumnHosts := by
  have hdvd := numColumnHosts_dvd cfg hH
  by_contra hge
  push_neg at hge
  have h1 : cfg.numHosts / cfg.numColumnHosts * cfg.numColumnHosts ≤
      id / cfg.numColumnHosts * cfg.numColumnHosts :=
    Nat.mul_le_mul_right _ hge
  have h2 : id / cfg.numColumnHosts * cfg.numColumnHosts ≤ id :=
    Nat.div_mul_le_self _ _
  rw [Nat.div_mul_cancel hdvd] at h1
  omega

/-- A block in row `gridRowID (id + d*numHosts)` at column slot `i < C` with
`i = gridColumnID id` is exactly the own virtual block `id + d*numHosts`. -/
theorem leader_plus_col (cfg : CCConfig) (hH : 1 ≤ cfg.numHosts)
    (id d : ℕ) :
    gridRowID cfg (id + d * cfg.numHosts) * cfg.numColumnHosts +
      gridColumnID cfg id = id + d * cfg.numHosts := by
  have hdvd := numColumnHosts_dvd cfg hH
  rw [rowOf_virtual cfg hH id d, Nat.add_mul, Nat.mul_assoc,
    Nat.div_mul_cancel hdvd]
  unfold gridColumnID
  have hdm := Nat.div_add_mod id cfg.numColumnHosts
  rw [Nat.mul_comm] at hdm
  omega

theorem p2block_lt_nv (cfg : CCConfig) (hH : 1 ≤ cfg.numHosts)
    (id d i : ℕ) (hid : id < cfg.numHosts) (hd : d < cfg.decomposeFactor)
    (hi : i < cfg.numColumnHosts) :
    gridRowID cfg (id + d * cfg.numHosts) * cfg.numColumnHosts + i <
      cfg.numVirtualHosts := by
  have hdvd := numColumnHosts_dvd cfg hH
  have hdivlt := div_lt_of_lt_numHosts cfg hH id hid
  rw [rowOf_virtual cfg hH id d, Nat.add_mul, Nat.mul_assoc,
    Nat.div_mul_cancel hdvd]
  have h1 : id / cfg.numColumnHosts * cfg.numColumnHosts + i <
      cfg.numHosts := by
    have h2 : (id / cfg.numColumnHosts + 1) * cfg.numColumnHosts ≤
        cfg.numHosts / cfg.numColumnHosts * cfg.numColumnHosts :=
      Nat.mul_le_mul_right _ (by omega)
    rw [Nat.div_mul_cancel hdvd] at h2
    rw [Nat.add_mul] at h2
    omega
  unfold CCConfig.numVirtualHosts
  calc id / cfg.numColumnHosts * cfg.numColumnHosts + d * cfg.numHosts + i
      < cfg.numHosts + d * cfg.numHosts := by omega
    _ ≤ cfg.numHosts * cfg.decomposeFactor := by
        have h3 : (d + 1) * cfg.numHosts ≤
            cfg.decomposeFactor * cfg.numHosts :=
          Nat.mul_le_mul_right _ (by omega)
        rw [Nat.add_mul, Nat.mul_comm cfg.decomposeFactor] at h3
        omega

theorem own_lt_nv (cfg : CCConfig) (id d : ℕ) (hid : id < cfg.numHosts)
    (hd : d < cfg.decomposeFactor) :
    id + d * cfg.numHosts < cfg.numVirtualHosts := by
  unfold CCConfig.numVirtualHosts
  calc id + d * cfg.numHosts < (d + 1) * cfg.numHosts := by
        rw [Nat.add_mul]; omega
    _ ≤ cfg.decomposeFactor * cfg.numHosts := Nat.mul_le_mul_right _ hd
    _ = cfg.numHosts * cfg.decomposeFactor := Nat.mul_comm _ _

theorem p3cb_lt_nv (cfg : CCConfig) (hH : 1 ≤ cfg.numHosts)
    (id i : ℕ) (hi : i < cfg.numRowHosts) :
    gridColumnID cfg id * cfg.numRowHosts + i < cfg.numVirtualHosts := by
  have hCpos := numColumnHosts_pos cfg hH
  have hRC := numRow_mul_numCol cfg hH
  have hcol : gridColumnID cfg id < cfg.numColumnHosts :=
    Nat.mod_lt _ (by omega)
  unfold CCConfig.numVirtualHosts
  calc gridColumnID cfg id * cfg.numRowHosts + i
      < (gridColumnID cfg id + 1) * cfg.numRowHosts := by
        rw [Nat.add_mul]; omega
    _ ≤ cfg.numColumnHosts * cfg.numRowHosts := Nat.mul_le_mul_right _ hcol
    _ = cfg.numHosts * cfg.decomposeFactor := by rw [Nat.mul_comm]; exact hRC

theorem p3nc_lt_nv (cfg : CCConfig) (hH : 1 ≤ cfg.numHosts)
    (id i : ℕ) (hi : i < cfg.numRowHosts) :
    i * cfg.numColumnHosts + gridColumnID cfg id < cfg.numVirtualHosts := by
  have hCpos := numColumnHosts_pos cfg hH
  have hRC := numRow_mul_numCol cfg hH
  have hcol : gridColumnID cfg id < cfg.numColumnHosts :=
    Nat.mod_lt _ (by omega)
  unfold CCConfig.numVirtualHosts
  calc i * cfg.numColumnHosts + gridColumnID cfg id
      < (i + 1) * cfg.numColumnHosts := by rw [Nat.add_mul]; omega
    _ ≤ cfg.numRowHosts * cfg.numColumnHosts := Nat.mul_le_mul_right _ hi
    _ = cfg.numHosts * cfg.decomposeFactor := hRC

/-! ### The block ranges each layout loop walks, and their distinctness -/

/-- Blocks of the first layout loop: this host's own virtual blocks. -/
def ownedBlockLists (cfg : CCConfig) (id : ℕ) : List (List ℕ) :=
  (List.range cfg.decomposeFactor).map (fun d =>
    blockIds cfg (id + d * cfg.numHosts))

/-- Ids walked by iteration `(d, i)` of the second layout loop: empty when
the slot is this host itself, else the block at column `i` of the row of
`id + d*numHosts`. -/
def phase2Entry (cfg : CCConfig) (id d i : ℕ) : List ℕ :=
  if virtual2RealHost cfg
      (gridRowID cfg (id + d * cfg.numHosts) * cfg.numColumnHosts + i) = id
  then []
  else blockIds cfg
    (gridRowID cfg (id + d * cfg.numHosts) * cfg.numColumnHosts + i)

def phase2BlockLists (cfg : CCConfig) (id : ℕ) : List (List ℕ) :=
  ((List.range cfg.decomposeFactor).map (fun d =>
    (List.range cfg.numColumnHosts).map (phase2Entry cfg id d))).flatten

/-- Ids walked by iteration `i` of the third layout loop, after its skips. -/
def phase3Entry (cfg : CCConfig) (id i : ℕ) : List ℕ :=
  if virtual2RealHost cfg (phase3Host cfg id i) = id then []
  else if cfg.columnBlocked && inOwnRowBlocks cfg id (phase3Host cfg id i)
    then []
  else blockIds cfg (phase3Host cfg id i)

def phase3BlockLists (cfg : CCConfig) (id : ℕ) : List (List ℕ) :=
  (List.range cfg.numRowHosts).map (phase3Entry cfg id)

/-- All id runs the three layout loops may walk, in order. -/
def layoutBlockLists (cfg : CCConfig) (id : ℕ) : List (List ℕ) :=
  ownedBlockLists cfg id ++ phase2BlockLists cfg id ++ phase3BlockLists cfg id

theorem mem_ownedBlockLists {cfg : CCConfig} {id : ℕ} {l : List ℕ} :
    l ∈ ownedBlockLists cfg id →
      ∃ d, d < cfg.decomposeFactor ∧
        l = blockIds cfg (id + d * cfg.numHosts) := by
  intro h
  unfold ownedBlockLists at h
  rw [List.mem_map] at h
  obtain ⟨d, hd, rfl⟩ := h
  exact ⟨d, List.mem_range.mp hd, rfl⟩

theorem mem_phase2BlockLists {cfg : CCConfig} {id : ℕ} {l : List ℕ} :
    l ∈ phase2BlockLists cfg id →
      ∃ d, d < cfg.decomposeFactor ∧ ∃ i, i < cfg.numColumnHosts ∧
        l = phase2Entry cfg id d i := by
  intro h
  unfold phase2BlockLists at h
  rw [List.mem_flatten] at h
  obtain ⟨row, hrow, hl⟩ := h
  rw [List.mem_map] at hrow
  obtain ⟨d, hd, rfl⟩ := hrow
  rw [List.mem_map] at hl
  obtain ⟨i, hi, rfl⟩ := hl
  exact ⟨d, List.mem_range.mp hd, i, List.mem_range.mp hi, rfl⟩

theorem mem_phase3BlockLists {cfg : CCConfig} {id : ℕ} {l : List ℕ} :
    l ∈ phase3BlockLists cfg id →
      ∃ i, i < cfg.numRowHosts ∧ l = phase3Entry cfg id i := by
  intro h
  unfold phase3BlockLists at h
  rw [List.mem_map] at h
  obtain ⟨i, hi, rfl⟩ := h
  exact ⟨i, List.mem_range.mp hi, rfl⟩

theorem phase2Entry_cases (cfg : CCConfig) (id d i : ℕ) :
    phase2Entry cfg id d i = [] ∨
    (phase2Entry cfg id d i = blockIds cfg
      (gridRowID cfg (id + d * cfg.numHosts) * cfg.numColumnHosts + i) ∧
     virtual2RealHost cfg
      (gridRowID cfg (id + d * cfg.numHosts) * cfg.numColumnHosts + i) ≠
        id) := by
  unfold phase2Entry
  by_cases h : virtual2RealHost cfg
      (gridRowID cfg (id + d * cfg.numHosts) * cfg.numColumnHosts + i) = id
  · left; rw [if_pos h]
  · right; exact ⟨if_neg h, h⟩

theorem phase3Entry_cases (cfg : CCConfig) (id i : ℕ) :
    phase3Entry cfg id i = [] ∨
    (phase3Entry cfg id i = blockIds cfg (phase3Host cfg id i) ∧
     virtual2RealHost cfg (phase3Host cfg id i) ≠ id ∧
     (cfg.columnBlocked &&
       inOwnRowBlocks cfg id (phase3Host cfg id i)) = false) := by
  unfold phase3Entry
  by_cases h1 : virtual2RealHost cfg (phase3Host cfg id i) = id
  · left; rw [if_pos h1]
  · rw [if_neg h1]
    by_cases h2 : (cfg.columnBlocked &&
        inOwnRowBlocks cfg id (phase3Host cfg id i)) = true
    · left; rw [if_pos h2]
    · right
      rw [if_neg h2]
      exact ⟨rfl, h1, by revert h2; cases (cfg.columnBlocked &&
        inOwnRowBlocks cfg id (phase3Host cfg id i)) <;> simp⟩

theorem v2r_own (cfg : CCConfig) (id d : ℕ) (hid : id < cfg.numHosts) :
    virtual2RealHost cfg (id + d * cfg.numHosts) = id := by
  unfold virtual2RealHost
  rw [Nat.add_mul_mod_self_right, Nat.mod_eq_of_lt hid]

theorem divHC_pos (cfg : CCConfig) (hH : 1 ≤ cfg.numHosts) :
    1 ≤ cfg.numHosts / cfg.numColumnHosts :=
  Nat.div_pos (Nat.le_of_dvd (by omega) (numColumnHosts_dvd cfg hH))
    (numColumnHosts_pos cfg hH)

theorem row_block_div (cfg : CCConfig) (hH : 1 ≤ cfg.numHosts)
    (r i : ℕ) (hi : i < cfg.numColumnHosts) :
    (r * cfg.numColumnHosts + i) / cfg.numColumnHosts = r := by
  have hCpos := numColumnHosts_pos cfg hH
  rw [Nat.add_comm, Nat.add_mul_div_right _ _ (by omega),
    Nat.div_eq_of_lt hi]
  omega

theorem row_block_mod (cfg : CCConfig) (r i : ℕ)
    (hi : i < cfg.numColumnHosts) :
    (r * cfg.numColumnHosts + i) % cfg.numColumnHosts = i := by
  rw [Nat.add_comm, Nat.add_mul_mod_self_right, Nat.mod_eq_of_lt hi]

/-- Two blocks of the second layout loop in different decomposed rows are
different virtual hosts. -/
theorem p2block_ne_cross_row (cfg : CCConfig) (hH : 1 ≤ cfg.numHosts)
    (id d d' i i' : ℕ) (hdne : d ≠ d') (hi : i < cfg.numColumnHosts)
    (hi' : i' < cfg.numColumnHosts) :
    gridRowID cfg (id + d * cfg.numHosts) * cfg.numColumnHosts + i ≠
      gridRowID cfg (id + d' * cfg.numHosts) * cfg.numColumnHosts + i' := by
  intro heq
  have h1 := row_block_div cfg hH (gridRowID cfg (id + d * cfg.numHosts)) i hi
  have h2 := row_block_div cfg hH (gridRowID cfg (id + d' * cfg.numHosts)) i' hi'
  rw [heq] at h1
  rw [h2] at h1
  rw [rowOf_virtual cfg hH id d', rowOf_virtual cfg hH id d] at h1
  have hpos := divHC_pos cfg hH
  have := Nat.eq_of_mul_eq_mul_right (by omega : 0 < cfg.numHosts / cfg.numColumnHosts)
    (by omega : d' * (cfg.numHosts / cfg.numColumnHosts) =
      d * (cfg.numHosts / cfg.numColumnHosts))
  omega

/-- A block of the second layout loop that coincides with a block of the
non-checkerboard third loop is this host's own virtual block `id + d*H`. -/
theorem p2_p3_nc_own (cfg : CCConfig) (hH : 1 ≤ cfg.numHosts)
    (id d i i' : ℕ) (hi : i < cfg.numColumnHosts)
    (heq : gridRowID cfg (id + d * cfg.numHosts) * cfg.numColumnHosts + i =
      i' * cfg.numColumnHosts + gridColumnID cfg id) :
    gridRowID cfg (id + d * cfg.numHosts) * cfg.numColumnHosts + i =
      id + d * cfg.numHosts := by
  have hCpos := numColumnHosts_pos cfg hH
  have hcol : gridColumnID cfg id < cfg.numColumnHosts :=
    Nat.mod_lt _ (by omega)
  have h1 := row_block_mod cfg (gridRowID cfg (id + d * cfg.numHosts)) i hi
  have h2 := row_block_mod cfg i' (gridColumnID cfg id) hcol
  rw [heq, h2] at h1
  rw [← h1]
  exact leader_plus_col cfg hH id d

theorem own_block_ne (cfg : CCConfig) (hH : 1 ≤ cfg.numHosts)
    (id d d' : ℕ) (hne : d ≠ d') :
    id + d * cfg.numHosts ≠ id + d' * cfg.numHosts := by
  intro heq
  have h1 : d * cfg.numHosts = d' * cfg.numHosts := by omega
  have := Nat.eq_of_mul_eq_mul_right (by omega : 0 < cfg.numHosts) h1
  omega

theorem phase3Host_injective (cfg : CCConfig) (hH : 1 ≤ cfg.numHosts)
    (id i i' : ℕ) (hne : i ≠ i') :
    phase3Host cfg id i ≠ phase3Host cfg id i' := by
  have hCpos := numColumnHosts_pos cfg hH
  unfold phase3Host
  cases cfg.columnBlocked
  · simp only [Bool.false_eq_true, if_false]
    intro heq
    have h1 : i * cfg.numColumnHosts = i' * cfg.numColumnHosts := by omega
    have := Nat.eq_of_mul_eq_mul_right (by omega) h1
    omega
  · simp only [reduceIte]
    omega

theorem phase3Host_lt_nv (cfg : CCConfig) (hH : 1 ≤ cfg.numHosts)
    (id i : ℕ) (hi : i < cfg.numRowHosts) :
    phase3Host cfg id i < cfg.numVirtualHosts := by
  unfold phase3Host
  cases cfg.columnBlocked
  · simp only [Bool.false_eq_true, if_false]
    exact p3nc_lt_nv cfg hH id i hi
  · simp only [reduceIte]
    exact p3cb_lt_nv cfg hH id i hi

/-- A non-skipped block of the second layout loop never coincides with a
non-skipped block of the third: in non-checkerboard mode the only candidate
is this host's own block (excluded by the `virtual2RealHost` skip), in
checkerboard mode the third loop skips the second loop's rows outright. -/
theorem p2_p3_ne (cfg : CCConfig) (hH : 1 ≤ cfg.numHosts) (id : ℕ)
    (hid : id < cfg.numHosts) (d i i' : ℕ) (hd : d < cfg.decomposeFactor)
    (hi : i < cfg.numColumnHosts)
    (hx : virtual2RealHost cfg
      (gridRowID cfg (id + d * cfg.numHosts) * cfg.numColumnHosts + i) ≠ id)
    (hskip : (cfg.columnBlocked &&
      inOwnRowBlocks cfg id (phase3Host cfg id i')) = false) :
    gridRowID cfg (id + d * cfg.numHosts) * cfg.numColumnHosts + i ≠
      phase3Host cfg id i' := by
  intro heq
  cases hcb : cfg.columnBlocked
  · have hb' : phase3Host cfg id i' =
        i' * cfg.numColumnHosts + gridColumnID cfg id := by
      unfold phase3Host; rw [hcb]; simp
    rw [hb'] at heq
    have hown := p2_p3_nc_own cfg hH id d i i' hi heq
    rw [hown] at hx
    exact hx (v2r_own cfg id d hid)
  · rw [hcb, Bool.true_and] at hskip
    have htrue : inOwnRowBlocks cfg id (phase3Host cfg id i') = true := by
      unfold inOwnRowBlocks
      rw [List.any_eq_true]
      refine ⟨d, List.mem_range.mpr hd, ?_⟩
      rw [← heq]
      simp only [Bool.and_eq_true, decide_eq_true_eq]
      omega
    rw [htrue] at hskip
    cases hskip

/-- The flattening of every id run the three layout loops may walk holds no
global id twice: the visited blocks are pairwise distinct virtual hosts and
distinct blocks carry disjoint ranges. -/
theorem layoutBlockLists_flatten_nodup (cfg : CCConfig) (hc : Contiguous cfg)
    (hH : 1 ≤ cfg.numHosts) (id : ℕ) (hid : id < cfg.numHosts) :
    ((layoutBlockLists cfg id).flatten).Nodup := by
  rw [List.nodup_flatten]
  constructor
  · intro l hl
    unfold layoutBlockLists at hl
    rw [List.mem_append, List.mem_append] at hl
    have hshape : l = [] ∨ ∃ b, l = blockIds cfg b := by
      rcases hl with (hl | hl) | hl
      · obtain ⟨d, _, rfl⟩ := mem_ownedBlockLists hl
        exact Or.inr ⟨_, rfl⟩
      · obtain ⟨d, _, i, _, rfl⟩ := mem_phase2BlockLists hl
        rcases phase2Entry_cases cfg id d i with h | ⟨h, _⟩
        · exact Or.inl h
        · exact Or.inr ⟨_, h⟩
      · obtain ⟨i, _, rfl⟩ := mem_phase3BlockLists hl
        rcases phase3Entry_cases cfg id i with h | ⟨h, _, _⟩
        · exact Or.inl h
        · exact Or.inr ⟨_, h⟩
    rcases hshape with rfl | ⟨b, rfl⟩
    · exact List.nodup_nil
    · unfold blockIds
      exact List.nodup_range' _ _
  · unfold layoutBlockLists
    rw [List.pairwise_append]
    refine ⟨?_, ?_, ?_⟩
    · rw [List.pairwise_append]
      refine ⟨?_, ?_, ?_⟩
      · -- within the owned blocks
        unfold ownedBlockLists
        rw [List.pairwise_map]
        apply pairwise_range_of_lt
        intro d d' hdd' hd'
        exact blockIds_disjoint cfg hc _ _
          (own_lt_nv cfg id d hid (by omega)) (own_lt_nv cfg id d' hid hd')
          (own_block_ne cfg hH id d d' (by omega))
      · -- within the second loop's blocks
        unfold phase2BlockLists
        rw [List.pairwise_flatten]
        constructor
        · intro row hrow
          rw [List.mem_map] at hrow
          obtain ⟨d, hd, rfl⟩ := hrow
          rw [List.mem_range] at hd
          rw [List.pairwise_map]
          apply pairwise_range_of_lt
          intro i i' hii' hi'
          rcases phase2Entry_cases cfg id d i with h | ⟨h, _⟩
          · rw [h]; exact List.disjoint_nil_left _
          · rcases phase2Entry_cases cfg id d i' with h' | ⟨h', _⟩
            · rw [h']; exact List.disjoint_nil_right _
            · rw [h, h']
              exact blockIds_disjoint cfg hc _ _
                (p2block_lt_nv cfg hH id d i hid hd (by omega))
                (p2block_lt_nv cfg hH id d i' hid hd hi')
                (by omega)
        · rw [List.pairwise_map]
          apply pairwise_range_of_lt
          intro d d' hdd' hd'
          intro x hx y hy
          rw [List.mem_map] at hx hy
          obtain ⟨i, hi, rfl⟩ := hx
          obtain ⟨i', hi', rfl⟩ := hy
          rw [List.mem_range] at hi hi'
          rcases phase2Entry_cases cfg id d i with h | ⟨h, _⟩
          · rw [h]; exact List.disjoint_nil_left _
          · rcases phase2Entry_cases cfg id d' i' with h' | ⟨h', _⟩
            · rw [h']; exact List.disjoint_nil_right _
            · rw [h, h']
              exact blockIds_disjoint cfg hc _ _
                (p2block_lt_nv cfg hH id d i hid (by omega) hi)
                (p2block_lt_nv cfg hH id d' i' hid hd' hi')
                (p2block_ne_cross_row cfg hH id d d' i i' (by omega) hi hi')
      · -- owned blocks versus the second loop
        intro x hx y hy
        obtain ⟨d, hd, rfl⟩ := mem_ownedBlockLists hx
        obtain ⟨d', hd', i, hi, rfl⟩ := mem_phase2BlockLists hy
        rcases phase2Entry_cases cfg id d' i with h | ⟨h, hv2r⟩
        · rw [h]; exact List.disjoint_nil_right _
        · rw [h]
          refine blockIds_disjoint cfg hc _ _
            (own_lt_nv cfg id d hid hd)
            (p2block_lt_nv cfg hH id d' i hid hd' hi) ?_
          intro heq
          rw [← heq] at hv2r
          exact hv2r (v2r_own cfg id d hid)
    · -- within the third loop's blocks
      unfold phase3BlockLists
      rw [List.pairwise_map]
      apply pairwise_range_of_lt
      intro i i' hii' hi'
      rcases phase3Entry_cases cfg id i with h | ⟨h, _, _⟩
      · rw [h]; exact List.disjoint_nil_left _
      · rcases phase3Entry_cases cfg id i' with h' | ⟨h', _, _⟩
        · rw [h']; exact List.disjoint_nil_right _
        · rw [h, h']
          exact blockIds_disjoint cfg hc _ _
            (phase3Host_lt_nv cfg hH id i (by omega))
            (phase3Host_lt_nv cfg hH id i' hi')
            (phase3Host_injective cfg hH id i i' (by omega))
    · -- first two loops versus the third
      intro x hx y hy
      obtain ⟨i', hi', rfl⟩ := mem_phase3BlockLists hy
      rw [List.mem_append] at hx
      rcases hx with hx | hx
      · obtain ⟨d, hd, rfl⟩ := mem_ownedBlockLists hx
        rcases phase3Entry_cases cfg id i' with h' | ⟨h', hv2r, _⟩
        · rw [h']; exact List.disjoint_nil_right _
        · rw [h']
          refine blockIds_disjoint cfg hc _ _
            (own_lt_nv cfg id d hid hd)
            (phase3Host_lt_nv cfg hH id i' hi') ?_
          intro heq
          rw [← heq] at hv2r
          exact hv2r (v2r_own cfg id d hid)
      · obtain ⟨d, hd, i, hi, rfl⟩ := mem_phase2BlockLists hx
        rcases phase2Entry_cases cfg id d i with h | ⟨h, hv2r⟩
        · rw [h]; exact List.disjoint_nil_left _
        · rcases phase3Entry_cases cfg id i' with h' | ⟨h', _, hskip⟩
          · rw [h']; exact List.disjoint_nil_right _
          · rw [h, h']
            exact blockIds_disjoint cfg hc _ _
              (p2block_lt_nv cfg hH id d i hid hd hi)
              (phase3Host_lt_nv cfg hH id i' hi')
              (p2_p3_ne cfg hH id hid d i i' hd hi hv2r hskip)

/-! ### What the layout loops append to `localToGlobalVector` -/

theorem pushNode_l2g (st : LayoutState) (gid deg : ℕ) :
    (st.pushNode gid deg).localToGlobalVector =
      st.localToGlobalVector ++ [gid] := rfl

theorem phase1Push_l2g (cfg : CCConfig) (id : ℕ)
    (outDeg : ℕ → ℕ → List ℕ) (d : ℕ) (st : LayoutState) (j : ℕ) :
    (phase1Push cfg id outDeg d st j).localToGlobalVector =
      st.localToGlobalVector ++
        [(blockRange cfg (id + d * cfg.numHosts)).1 + j] := rfl

theorem phase2Push_l2g (cfg : CCConfig) (id : ℕ)
    (outDeg : ℕ → ℕ → List ℕ) (hasIn : ℕ → Bool) (d i : ℕ)
    (st : LayoutState) (j : ℕ) :
    ∃ l, (phase2Push cfg id outDeg hasIn d i st j).localToGlobalVector =
      st.localToGlobalVector ++ l ∧
      l.Sublist [(blockRange cfg (gridRowID cfg (id + d * cfg.numHosts) *
        cfg.numColumnHosts + i)).1 + j] := by
  unfold phase2Push
  split
  · exact ⟨_, rfl, List.Sublist.refl _⟩
  · split
    · split
      · exact ⟨_, rfl, List.Sublist.refl _⟩
      · exact ⟨_, rfl, List.Sublist.refl _⟩
    · exact ⟨[], (List.append_nil _).symm, List.nil_sublist _⟩

theorem phase3Push_l2g (cfg : CCConfig) (id : ℕ) (hasIn : ℕ → Bool)
    (i : ℕ) (st : LayoutState) (j : ℕ) :
    ∃ l, (phase3Push cfg id hasIn i st j).localToGlobalVector =
      st.localToGlobalVector ++ l ∧
      l.Sublist [(blockRange cfg (phase3Host cfg id i)).1 + j] := by
  unfold phase3Push
  split
  · exact ⟨_, rfl, List.Sublist.refl _⟩
  · exact ⟨[], (List.append_nil _).symm, List.nil_sublist _⟩

theorem phase1_l2g (cfg : CCConfig) (id : ℕ) (outDeg : ℕ → ℕ → List ℕ)
    (hlen : ∀ d, d < cfg.decomposeFactor →
      (outDeg d (gridColumnID cfg id)).length ≤
        (blockRange cfg (id + d * cfg.numHosts)).2 -
          (blockRange cfg (id + d * cfg.numHosts)).1)
    (st : LayoutState) :
    ∃ l, (phase1 cfg id outDeg st).localToGlobalVector =
      st.localToGlobalVector ++ l ∧
      l.Sublist ((ownedBlockLists cfg id).flatten) := by
  obtain ⟨l, hl, hs⟩ := foldl_l2g_sub
    (fun st d => (List.range (outDeg d (gridColumnID cfg id)).length).foldl
      (phase1Push cfg id outDeg d) st)
    (fun d => blockIds cfg (id + d * cfg.numHosts))
    (List.range cfg.decomposeFactor)
    (by
      intro st d hd
      rw [List.mem_range] at hd
      obtain ⟨l, hl, hs⟩ := foldl_l2g_sub (phase1Push cfg id outDeg d)
        (fun j => [(blockRange cfg (id + d * cfg.numHosts)).1 + j])
        (List.range (outDeg d (gridColumnID cfg id)).length)
        (fun st j _ => ⟨[(blockRange cfg (id + d * cfg.numHosts)).1 + j],
          phase1Push_l2g cfg id outDeg d st j, List.Sublist.refl _⟩)
        st
      refine ⟨l, hl, ?_⟩
      rw [flatten_map_singleton] at hs
      rw [show (List.range (outDeg d (gridColumnID cfg id)).length).map
          (fun j => (blockRange cfg (id + d * cfg.numHosts)).1 + j) =
          List.range' (blockRange cfg (id + d * cfg.numHosts)).1
            (outDeg d (gridColumnID cfg id)).length from
        (List.range'_eq_map_range _ _).symm] at hs
      refine hs.trans ?_
      unfold blockIds
      exact List.range'_sublist_right.mpr (hlen d hd))
    st
  exact ⟨l, hl, hs⟩

theorem phase2_l2g (cfg : CCConfig) (id : ℕ) (outDeg : ℕ → ℕ → List ℕ)
    (hasIn : ℕ → Bool)
    (hlen : ∀ d, d < cfg.decomposeFactor → ∀ i, i < cfg.numColumnHosts →
      (outDeg d i).length ≤
        (blockRange cfg (gridRowID cfg (id + d * cfg.numHosts) *
          cfg.numColumnHosts + i)).2 -
        (blockRange cfg (gridRowID cfg (id + d * cfg.numHosts) *
          cfg.numColumnHosts + i)).1)
    (st : LayoutState) :
    ∃ l, (phase2 cfg id outDeg hasIn st).localToGlobalVector =
      st.localToGlobalVector ++ l ∧
      l.Sublist ((phase2BlockLists cfg id).flatten) := by
  obtain ⟨l, hl, hs⟩ := foldl_l2g_sub
    (fun st d => (List.range cfg.numColumnHosts).foldl
      (phase2Col cfg id outDeg hasIn d) st)
    (fun d => ((List.range cfg.numColumnHosts).map
      (phase2Entry cfg id d)).flatten)
    (List.range cfg.decomposeFactor)
    (by
      intro st d hd
      rw [List.mem_range] at hd
      exact foldl_l2g_sub (phase2Col cfg id outDeg hasIn d)
        (phase2Entry cfg id d) (List.range cfg.numColumnHosts)
        (by
          intro st i hi
          rw [List.mem_range] at hi
          unfold phase2Col phase2Entry
          by_cases hskip : virtual2RealHost cfg
              (gridRowID cfg (id + d * cfg.numHosts) * cfg.numColumnHosts +
                i) = id
          · rw [if_pos hskip, if_pos hskip]
            exact ⟨[], (List.append_nil _).symm, List.nil_sublist _⟩
          · rw [if_neg hskip, if_neg hskip]
            obtain ⟨l, hl, hs⟩ := foldl_l2g_sub
              (phase2Push cfg id outDeg hasIn d i)
              (fun j => [(blockRange cfg
                (gridRowID cfg (id + d * cfg.numHosts) *
                  cfg.numColumnHosts + i)).1 + j])
              (List.range (outDeg d i).length)
              (fun st j _ => phase2Push_l2g cfg id outDeg hasIn d i st j)
              st
            refine ⟨l, hl, ?_⟩
            rw [flatten_map_singleton] at hs
            rw [show (List.range (outDeg d i).length).map
                (fun j => (blockRange cfg
                  (gridRowID cfg (id + d * cfg.numHosts) *
                    cfg.numColumnHosts + i)).1 + j) =
                List.range' (blockRange cfg
                  (gridRowID cfg (id + d * cfg.numHosts) *
                    cfg.numColumnHosts + i)).1
                  (outDeg d i).length from
              (List.range'_eq_map_range _ _).symm] at hs
            refine hs.trans ?_
            unfold blockIds
            exact List.range'_sublist_right.mpr (hlen d hd i hi))
        st)
    st
  refine ⟨l, hl, ?_⟩
  rw [flatten_map_flatten (fun d => (List.range cfg.numColumnHosts).map
    (phase2Entry cfg id d)) (List.range cfg.decomposeFactor)] at hs
  exact hs

theorem phase3_l2g (cfg : CCConfig) (id : ℕ) (hasIn : ℕ → Bool)
    (st : LayoutState) :
    ∃ l, (phase3 cfg id hasIn st).localToGlobalVector =
      st.localToGlobalVector ++ l ∧
      l.Sublist ((phase3BlockLists cfg id).flatten) := by
  exact foldl_l2g_sub (phase3Step cfg id hasIn) (phase3Entry cfg id)
    (List.range cfg.numRowHosts)
    (by
      intro st i _
      unfold phase3Step phase3Entry
      by_cases h1 : virtual2RealHost cfg (phase3Host cfg id i) = id
      · rw [if_pos h1, if_pos h1]
        exact ⟨[], (List.append_nil _).symm, List.nil_sublist _⟩
      · rw [if_neg h1, if_neg h1]
        by_cases h2 : (cfg.columnBlocked &&
            inOwnRowBlocks cfg id (phase3Host cfg id i)) = true
        · rw [if_pos h2, if_pos h2]
          exact ⟨[], (List.append_nil _).symm, List.nil_sublist _⟩
        · rw [if_neg h2, if_neg h2]
          obtain ⟨l, hl, hs⟩ := foldl_l2g_sub
            (phase3Push cfg id hasIn i)
            (fun j => [(blockRange cfg (phase3Host cfg id i)).1 + j])
            (List.range ((blockRange cfg (phase3Host cfg id i)).2 -
              (blockRange cfg (phase3Host cfg id i)).1))
            (fun st j _ => phase3Push_l2g cfg id hasIn i st j)
            st
          refine ⟨l, hl, ?_⟩
          rw [flatten_map_singleton] at hs
          rw [show (List.range ((blockRange cfg (phase3Host cfg id i)).2 -
              (blockRange cfg (phase3Host cfg id i)).1)).map
              (fun j => (blockRange cfg (phase3Host cfg id i)).1 + j) =
              List.range' (blockRange cfg (phase3Host cfg id i)).1
                ((blockRange cfg (phase3Host cfg id i)).2 -
                  (blockRange cfg (phase3Host cfg id i)).1) from
            (List.range'_eq_map_range _ _).symm] at hs
          exact hs)
    st

/-! ### The `numNodes`-tracks-length invariant -/

theorem pushNode_preserves {st : LayoutState} (gid deg : ℕ)
    (h : st.numNodes = st.localToGlobalVector.length) :
    (st.pushNode gid deg).numNodes =
      (st.pushNode gid deg).localToGlobalVector.length := by
  unfold LayoutState.pushNode
  simp [h]

theorem layout_numNodes_eq_length (cfg : CCConfig) (id : ℕ)
    (outDeg : ℕ → ℕ → List ℕ) (hasIn : ℕ → Bool) :
    (loadStatisticsLayout cfg id outDeg hasIn).numNodes =
      (loadStatisticsLayout cfg id outDeg hasIn).localToGlobalVector.length := by
  unfold loadStatisticsLayout phase3 phase2 phase1
  apply foldl_preserves _
    (fun st => st.numNodes = st.localToGlobalVector.length)
  · intro st i h
    unfold phase3Step
    split
    · exact h
    · split
      · exact h
      · apply foldl_preserves _
          (fun st => st.numNodes = st.localToGlobalVector.length)
        · intro st j h
          unfold phase3Push
          split
          · exact pushNode_preserves _ _ h
          · exact h
        · exact h
  · apply foldl_preserves _
      (fun st => st.numNodes = st.localToGlobalVector.length)
    · intro st d h
      apply foldl_preserves _
        (fun st => st.numNodes = st.localToGlobalVector.length)
      · intro st i h
        unfold phase2Col
        split
        · exact h
        · apply foldl_preserves _
            (fun st => st.numNodes = st.localToGlobalVector.length)
          · intro st j h
            unfold phase2Push
            split
            · exact pushNode_preserves _ _ h
            · split
              · split
                · simp only [LayoutState.pushNode]
                  simp [h]
                · exact pushNode_preserves _ _ h
              · exact h
          · exact h
      · exact h
    · apply foldl_preserves _
        (fun st => st.numNodes = st.localToGlobalVector.length)
      · intro st d h
        apply foldl_preserves _
          (fun st => st.numNodes = st.localToGlobalVector.length)
        · intro st j h
          exact pushNode_preserves _ _ h
        · exact h
      · rfl

/-! ### Claim C5 -/

/-- C5: on every host, whatever edge data the inspection and exchange
delivered, the layout phase of `loadStatistics` produces a
`localToGlobalVector` without duplicates, with `numNodes` equal to its
length.  `hlen` states that every merged degree vector is no longer than
its block (each host sizes its vectors to its own ranges); the grid
configuration — `columnBlocked`, `moreColumnHosts` and any
`DecomposeFactor` — is arbitrary. -/
theorem loadStatisticsLayout_nodup (cfg : CCConfig) (hc : Contiguous cfg)
    (hH : 1 ≤ cfg.numHosts) (id : ℕ) (hid : id < cfg.numHosts)
    (outDeg : ℕ → ℕ → List ℕ) (hasIn : ℕ → Bool)
    (hlen : ∀ d, d < cfg.decomposeFactor → ∀ i, i < cfg.numColumnHosts →
      (outDeg d i).length ≤
        (blockRange cfg (gridRowID cfg (id + d * cfg.numHosts) *
          cfg.numColumnHosts + i)).2 -
        (blockRange cfg (gridRowID cfg (id + d * cfg.numHosts) *
          cfg.numColumnHosts + i)).1) :
    (loadStatisticsLayout cfg id outDeg hasIn).localToGlobalVector.Nodup ∧
    (loadStatisticsLayout cfg id outDeg hasIn).numNodes =
      (loadStatisticsLayout cfg id outDeg hasIn).localToGlobalVector.length := by
  refine ⟨?_, layout_numNodes_eq_length cfg id outDeg hasIn⟩
  have hcol : gridColumnID cfg id < cfg.numColumnHosts :=
    Nat.mod_lt _ (by have := numColumnHosts_pos cfg hH; omega)
  have hlen1 : ∀ d, d < cfg.decomposeFactor →
      (outDeg d (gridColumnID cfg id)).length ≤
        (blockRange cfg (id + d * cfg.numHosts)).2 -
          (blockRange cfg (id + d * cfg.numHosts)).1 := by
    intro d hd
    have h := hlen d hd (gridColumnID cfg id) hcol
    rw [leader_plus_col cfg hH id d] at h
    exact h
  obtain ⟨l1, hl1, hs1⟩ := phase1_l2g cfg id outDeg hlen1 initLayout
  obtain ⟨l2, hl2, hs2⟩ := phase2_l2g cfg id outDeg hasIn hlen
    (phase1 cfg id outDeg initLayout)
  obtain ⟨l3, hl3, hs3⟩ := phase3_l2g cfg id hasIn
    (phase2 cfg id outDeg hasIn (phase1 cfg id outDeg initLayout))
  have hvec : (loadStatisticsLayout cfg id outDeg hasIn).localToGlobalVector =
      (l1 ++ l2) ++ l3 := by
    unfold loadStatisticsLayout
    rw [hl3, hl2, hl1]
    simp [initLayout, List.append_assoc]
  rw [hvec]
  have hsub : ((l1 ++ l2) ++ l3).Sublist
      ((layoutBlockLists cfg id).flatten) := by
    unfold layoutBlockLists
    rw [List.flatten_append, List.flatten_append]
    exact List.Sublist.append (List.Sublist.append hs1 hs2) hs3
  exact hsub.nodup (layoutBlockLists_flatten_nodup cfg hc hH id hid)

/-- Witness for C5 on the chain scenario (one host, `D = 1`). -/
theorem loadStatisticsLayout_nodup_witness :
    Contiguous chainCfg ∧ 1 ≤ chainCfg.numHosts ∧ 0 < chainCfg.numHosts ∧
    (∀ d, d < chainCfg.decomposeFactor → ∀ i, i < chainCfg.numColumnHosts →
      (inspectOutDeg chainCfg chainEdges 0 d i).length ≤
        (blockRange chainCfg (gridRowID chainCfg (0 + d * chainCfg.numHosts) *
          chainCfg.numColumnHosts + i)).2 -
        (blockRange chainCfg (gridRowID chainCfg (0 + d * chainCfg.numHosts) *
          chainCfg.numColumnHosts + i)).1) ∧
    (chainLayout.localToGlobalVector.Nodup ∧
      chainLayout.numNodes = chainLayout.localToGlobalVector.length) :=
  ⟨by decide, by decide, by decide, by decide,
    loadStatisticsLayout_nodup chainCfg (by decide) (by decide) 0 (by decide)
      (inspectOutDeg chainCfg chainEdges 0) (mergedHasIn chainCfg chainEdges 0)
      (by decide)⟩

/-! ### The second pass: edge routing (claim C1)

`loadEdgesFromFile` walks this host's own ranges; an edge `(n, gdst)` is
constructed in place when `h_offset + getColumnHostID gdst` is this host,
and otherwise buffered and sent to that host, whose
`processReceivedEdgeBuffer` / `receiveEdges` constructs it.  The functional
model gives each host the edges it reads (those whose source lies in one of
its ranges) and routes by the same arithmetic. -/

/-- The edges host `X` reads in the second pass: those with a source in one
of `X`'s `DecomposeFactor` ranges. -/
def edgesReadBy (cfg : CCConfig) (X : ℕ) (edges : List (ℕ × ℕ)) :
    List (ℕ × ℕ) :=
  edges.filter (fun e => readsSrc cfg X e.1)

/-- The routing of `loadEdgesFromFile` on reading host `X`:
`h_offset + i` with `h_offset = gridRowID() * numColumnHosts` and
`i = getColumnHostID gdst`. -/
def edgeTarget (cfg : CCConfig) (X : ℕ) (e : ℕ × ℕ) : ℕ :=
  gridRowID cfg X * cfg.numColumnHosts + getColumnHostID cfg e.2

/-- Edges host `X` constructs in place (`graph.constructEdge` under
`(h_offset + i) == id`). -/
def locallyConstructed (cfg : CCConfig) (X : ℕ) (edges : List (ℕ × ℕ)) :
    List (ℕ × ℕ) :=
  (edgesReadBy cfg X edges).filter (fun e => decide (edgeTarget cfg X e = X))

/-- Edges host `Y` reads and sends to host `X` (the per-column outbound
buffers). -/
def sentTo (cfg : CCConfig) (Y X : ℕ) (edges : List (ℕ × ℕ)) :
    List (ℕ × ℕ) :=
  (edgesReadBy cfg Y edges).filter
    (fun e => decide (edgeTarget cfg Y e = X) && !decide (X = Y))

/-- All edges host `X` constructs in the second pass: its in-place
constructions plus everything received from the other hosts' buffers. -/
def constructedOn (cfg : CCConfig) (X : ℕ) (edges : List (ℕ × ℕ)) :
    List (ℕ × ℕ) :=
  locallyConstructed cfg X edges ++
    ((List.range cfg.numHosts).map (fun Y => sentTo cfg Y X edges)).flatten

/-- The real host owning a node's block. -/
def ownerRealHost (cfg : CCConfig) (gid : ℕ) : ℕ :=
  virtual2RealHost cfg (getHostID cfg gid)

theorem count_filter_eq {α : Type} [BEq α] [LawfulBEq α] (p : α → Bool)
    (l : List α) (a : α) :
    (l.filter p).count a = if p a = true then l.count a else 0 := by
  by_cases h : p a = true
  · rw [if_pos h, List.count_filter h]
  · rw [if_neg h]
    refine List.count_eq_zero.mpr fun hm => h (List.of_mem_filter hm)

theorem sum_map_range_ite (n T c : ℕ) :
    ((List.range n).map (fun X => if X = T then c else 0)).sum =
      if T < n then c else 0 := by
  induction n with
  | zero => simp
  | succ m ih =>
    rw [List.range_succ, List.map_append, List.sum_append, ih]
    simp only [List.map_cons, List.map_nil, List.sum_cons, List.sum_nil]
    split_ifs <;> omega

/-- Which hosts read a source: exactly the real host of its block. -/
theorem readsSrc_iff (cfg : CCConfig) (hc : Contiguous cfg)
    (hH : 1 ≤ cfg.numHosts) (s v : ℕ) (hv : v < cfg.numVirtualHosts)
    (hin : (blockRange cfg v).1 ≤ s ∧ s < (blockRange cfg v).2)
    (q : ℕ) (hq : q < cfg.numHosts) :
    readsSrc cfg q s = true ↔ q = v % cfg.numHosts := by
  unfold readsSrc
  rw [List.any_eq_true]
  constructor
  · rintro ⟨d, hd, hblk⟩
    rw [List.mem_range] at hd
    simp only [Bool.and_eq_true, decide_eq_true_eq] at hblk
    have hlt := own_lt_nv cfg q d hq hd
    have heq : q + d * cfg.numHosts = v := by
      by_contra hne
      have hdisj := blockIds_disjoint cfg hc _ _ hlt hv hne
      exact hdisj ((mem_blockIds cfg hc _ hlt s).mpr hblk)
        ((mem_blockIds cfg hc _ hv s).mpr hin)
    rw [← heq, Nat.add_mul_mod_self_right, Nat.mod_eq_of_lt hq]
  · intro hqW
    refine ⟨v / cfg.numHosts, List.mem_range.mpr ?_, ?_⟩
    · rw [Nat.div_lt_iff_lt_mul (by omega), Nat.mul_comm]
      unfold CCConfig.numVirtualHosts at hv
      omega
    · have hsplit : q + v / cfg.numHosts * cfg.numHosts = v := by
        rw [hqW, Nat.mod_add_div' v cfg.numHosts]
      rw [hsplit]
      simp only [Bool.and_eq_true, decide_eq_true_eq]
      exact hin

theorem getColumnHostID_lt (cfg : CCConfig) (hH : 1 ≤ cfg.numHosts)
    (hD : 1 ≤ cfg.decomposeFactor) (gid : ℕ) :
    getColumnHostID cfg gid < cfg.numColumnHosts := by
  have hCpos := numColumnHosts_pos cfg hH
  have hRC := numRow_mul_numCol cfg hH
  have hRpos : 0 < cfg.numRowHosts := by
    rcases Nat.eq_zero_or_pos cfg.numRowHosts with h0 | h0
    · rw [h0, Nat.zero_mul] at hRC
      have : 0 < cfg.numHosts * cfg.decomposeFactor :=
        Nat.mul_pos (by omega) (by omega)
      omega
    · exact h0
  have hblk : getBlockID cfg gid < cfg.numHosts :=
    Nat.mod_lt _ (by omega)
  unfold getColumnHostID getColumnHostIDOfBlock
  split
  · rw [Nat.div_lt_iff_lt_mul hRpos]
    calc getBlockID cfg gid < cfg.numHosts := hblk
      _ ≤ cfg.numHosts * cfg.decomposeFactor :=
          Nat.le_mul_of_pos_right _ (by omega)
      _ = cfg.numColumnHosts * cfg.numRowHosts := by
          rw [← hRC, Nat.mul_comm]
  · exact Nat.mod_lt _ (by omega)

theorem edgeTarget_lt (cfg : CCConfig) (hH : 1 ≤ cfg.numHosts)
    (hD : 1 ≤ cfg.decomposeFactor) (W : ℕ) (hW : W < cfg.numHosts)
    (e : ℕ × ℕ) : edgeTarget cfg W e < cfg.numHosts := by
  have hdvd := numColumnHosts_dvd cfg hH
  have hCpos := numColumnHosts_pos cfg hH
  have hcol := getColumnHostID_lt cfg hH hD e.2
  have hdivlt := div_lt_of_lt_numHosts cfg hH W hW
  unfold edgeTarget gridRowID
  have h2 : (W / cfg.numColumnHosts + 1) * cfg.numColumnHosts ≤
      cfg.numHosts / cfg.numColumnHosts * cfg.numColumnHosts :=
    Nat.mul_le_mul_right _ (by omega)
  rw [Nat.div_mul_cancel hdvd, Nat.add_mul] at h2
  omega

/-- The count, on host `X`, of copies of edge `e` constructed in the second
pass: all of `e`'s copies when `X` is the grid slot at the row of the
source's owner and the column peer of the destination, none otherwise. -/
theorem count_constructedOn (cfg : CCConfig) (hc : Contiguous cfg)
    (hH : 1 ≤ cfg.numHosts) (hD : 1 ≤ cfg.decomposeFactor)
    (edges : List (ℕ × ℕ)) (e : ℕ × ℕ) (hsrc : e.1 < cfg.numGlobalNodes)
    (X : ℕ) (hX : X < cfg.numHosts) :
    (constructedOn cfg X edges).count e =
      if X = edgeTarget cfg (ownerRealHost cfg e.1) e
      then edges.count e else 0 := by
  have hnvpos : 0 < cfg.numVirtualHosts :=
    Nat.mul_pos (by omega) (by omega)
  obtain ⟨v, hv, hin⟩ := exists_block cfg hc hnvpos e.1 hsrc
  have hhost : getHostID cfg e.1 = v := getHostID_eq cfg hc v hv e.1 hin
  have hW : ownerRealHost cfg e.1 = v % cfg.numHosts := by
    unfold ownerRealHost virtual2RealHost
    rw [hhost]
  set W := v % cfg.numHosts with hWdef
  have hWlt : W < cfg.numHosts := Nat.mod_lt _ (by omega)
  have hread : ∀ q, q < cfg.numHosts →
      (edgesReadBy cfg q edges).count e =
        if q = W then edges.count e else 0 := by
    intro q hq
    unfold edgesReadBy
    rw [count_filter_eq]
    by_cases hqW : q = W
    · rw [if_pos ((readsSrc_iff cfg hc hH e.1 v hv hin q hq).mpr hqW),
        if_pos hqW]
    · rw [if_neg (fun htrue =>
        hqW ((readsSrc_iff cfg hc hH e.1 v hv hin q hq).mp htrue)),
        if_neg hqW]
  have hlocal : (locallyConstructed cfg X edges).count e =
      if edgeTarget cfg X e = X ∧ X = W then edges.count e else 0 := by
    unfold locallyConstructed
    rw [count_filter_eq]
    by_cases ht : edgeTarget cfg X e = X
    · rw [if_pos (by simp [ht]), hread X hX]
      by_cases hXW : X = W
      · rw [if_pos hXW, if_pos ⟨ht, hXW⟩]
      · rw [if_neg hXW, if_neg (fun h => hXW h.2)]
    · rw [if_neg (by simp [ht]), if_neg (fun h => ht h.1)]
  have hsent : ∀ Y, Y < cfg.numHosts →
      (sentTo cfg Y X edges).count e =
        if Y = W ∧ edgeTarget cfg W e = X ∧ X ≠ W
        then edges.count e else 0 := by
    intro Y hY
    unfold sentTo
    rw [count_filter_eq, hread Y hY]
    by_cases hYW : Y = W
    · by_cases ht : edgeTarget cfg W e = X
      · by_cases hXY : X = Y
        · have hA : ¬((decide (edgeTarget cfg Y e = X) &&
              !decide (X = Y)) = true) := by simp [hXY]
          rw [if_neg hA, if_neg (fun h => h.2.2 (hXY.trans hYW))]
        · have hXW : ¬X = W := fun h => hXY (h.trans hYW.symm)
          have hA : (decide (edgeTarget cfg Y e = X) &&
              !decide (X = Y)) = true := by simp [hYW, ht, hXW]
          rw [if_pos hA, if_pos hYW, if_pos ⟨hYW, ht, hXW⟩]
      · have hA : ¬((decide (edgeTarget cfg Y e = X) &&
            !decide (X = Y)) = true) := by
          simp only [Bool.and_eq_true, decide_eq_true_eq,
            Bool.not_eq_true', decide_eq_false_iff_not]
          intro h
          exact ht (by rw [← hYW]; exact h.1)
        rw [if_neg hA, if_neg (fun h => ht h.2.1)]
    · rw [if_neg hYW, if_neg (show ¬(Y = W ∧ edgeTarget cfg W e = X ∧
        X ≠ W) from fun h => hYW h.1)]
      simp
  have hflat : (((List.range cfg.numHosts).map
      (fun Y => sentTo cfg Y X edges)).flatten).count e =
      if edgeTarget cfg W e = X ∧ X ≠ W then edges.count e else 0 := by
    rw [List.count_flatten, List.map_map]
    have hcongr : (List.range cfg.numHosts).map
        (List.count e ∘ fun Y => sentTo cfg Y X edges) =
        (List.range cfg.numHosts).map (fun Y => if Y = W then
          (if edgeTarget cfg W e = X ∧ X ≠ W then edges.count e else 0)
          else 0) := by
      apply List.map_congr_left
      intro Y hY
      rw [List.mem_range] at hY
      simp only [Function.comp_apply]
      rw [hsent Y hY]
      by_cases h1 : Y = W <;>
        by_cases h2 : edgeTarget cfg W e = X ∧ X ≠ W <;>
        simp [h1, h2]
    rw [hcongr, sum_map_range_ite, if_pos hWlt]
  rw [hW]
  unfold constructedOn
  rw [List.count_append, hlocal, hflat]
  by_cases ht : edgeTarget cfg W e = X
  · rw [if_pos ht.symm]
    by_cases hXW : X = W
    · rw [if_pos ⟨by rw [hXW] at ht ⊢; exact ht, hXW⟩,
        if_neg (show ¬(edgeTarget cfg W e = X ∧ X ≠ W) from
          fun h => h.2 hXW)]
      omega
    · rw [if_neg (show ¬(edgeTarget cfg X e = X ∧ X = W) from
          fun h => hXW h.2), if_pos ⟨ht, hXW⟩]
      omega
  · rw [if_neg (show ¬(edgeTarget cfg X e = X ∧ X = W) from
        fun h => ht (by rw [← h.2]; exact h.1)),
      if_neg (show ¬(edgeTarget cfg W e = X ∧ X ≠ W) from
        fun h => ht h.1),
      if_neg (show ¬(X = edgeTarget cfg W e) from fun h => ht h.symm)]

/-- C1: the multiset union over all hosts of the edges constructed in the
second pass equals the global edge multiset (stated as equal counts for
every edge), and every listed edge `(s, t)` is constructed by exactly the
host at grid slot (row of `s`'s real owner, column peer of `t`'s block). -/
theorem loadEdges_coverage (cfg : CCConfig) (hc : Contiguous cfg)
    (hH : 1 ≤ cfg.numHosts) (hD : 1 ≤ cfg.decomposeFactor)
    (edges : List (ℕ × ℕ))
    (hE : ∀ e ∈ edges, e.1 < cfg.numGlobalNodes) :
    (∀ e : ℕ × ℕ,
      (((List.range cfg.numHosts).map
        (fun X => constructedOn cfg X edges)).flatten).count e =
        edges.count e) ∧
    (∀ e ∈ edges, ∀ X, X < cfg.numHosts →
      (e ∈ constructedOn cfg X edges ↔
        X = edgeTarget cfg (ownerRealHost cfg e.1) e)) := by
  constructor
  · intro e
    rw [List.count_flatten, List.map_map]
    by_cases he : e ∈ edges
    · have hcongr : (List.range cfg.numHosts).map
          (List.count e ∘ fun X => constructedOn cfg X edges) =
          (List.range cfg.numHosts).map
            (fun X => if X = edgeTarget cfg (ownerRealHost cfg e.1) e
              then edges.count e else 0) := by
        apply List.map_congr_left
        intro X hX
        rw [List.mem_range] at hX
        simp only [Function.comp_apply]
        exact count_constructedOn cfg hc hH hD edges e (hE e he) X hX
      rw [hcongr, sum_map_range_ite,
        if_pos (edgeTarget_lt cfg hH hD (ownerRealHost cfg e.1)
          (Nat.mod_lt _ (by omega)) e)]
    · have hzero : edges.count e = 0 := List.count_eq_zero.mpr he
      rw [hzero]
      apply List.sum_eq_zero
      intro x hx
      rw [List.mem_map] at hx
      obtain ⟨X, _, rfl⟩ := hx
      simp only [Function.comp_apply]
      unfold constructedOn
      rw [List.count_append]
      have h1 : (locallyConstructed cfg X edges).count e = 0 := by
        unfold locallyConstructed edgesReadBy
        rw [count_filter_eq, count_filter_eq, hzero]
        split_ifs <;> rfl
      have h2 : (((List.range cfg.numHosts).map
          (fun Y => sentTo cfg Y X edges)).flatten).count e = 0 := by
        rw [List.count_flatten, List.map_map]
        apply List.sum_eq_zero
        intro x hx
        rw [List.mem_map] at hx
        obtain ⟨Y, _, rfl⟩ := hx
        simp only [Function.comp_apply]
        unfold sentTo edgesReadBy
        rw [count_filter_eq, count_filter_eq, hzero]
        split_ifs <;> rfl
      rw [h1, h2]
      rfl
  · intro e he X hX
    have hcount := count_constructedOn cfg hc hH hD edges e (hE e he) X hX
    have hpos : 0 < edges.count e := List.count_pos_iff.mpr he
    constructor
    · intro hmem
      have := List.count_pos_iff.mpr hmem
      rw [hcount] at this
      by_contra hne
      rw [if_neg hne] at this
      omega
    · intro hT
      rw [← List.count_pos_iff, hcount, if_pos hT]
      exact hpos

/-- Witness for C1 on a two-host configuration (hosts 0 and 1 in one grid
row) with edges crossing the column boundary. -/
theorem loadEdges_coverage_witness :
    Contiguous (CCConfig.mk 2 1 false false [(0, 2), (2, 4)] 4) ∧
    1 ≤ (CCConfig.mk 2 1 false false [(0, 2), (2, 4)] 4).numHosts ∧
    1 ≤ (CCConfig.mk 2 1 false false [(0, 2), (2, 4)] 4).decomposeFactor ∧
    (∀ e ∈ ([(0, 3), (3, 0), (1, 1)] : List (ℕ × ℕ)),
      e.1 < (CCConfig.mk 2 1 false false [(0, 2), (2, 4)] 4).numGlobalNodes) ∧
    ((∀ e : ℕ × ℕ,
      (((List.range 2).map (fun X =>
        constructedOn (CCConfig.mk 2 1 false false [(0, 2), (2, 4)] 4) X
          [(0, 3), (3, 0), (1, 1)])).flatten).count e =
        ([(0, 3), (3, 0), (1, 1)] : List (ℕ × ℕ)).count e) ∧
    (∀ e ∈ ([(0, 3), (3, 0), (1, 1)] : List (ℕ × ℕ)), ∀ X, X < 2 →
      (e ∈ constructedOn (CCConfig.mk 2 1 false false [(0, 2), (2, 4)] 4) X
          [(0, 3), (3, 0), (1, 1)] ↔
        X = edgeTarget (CCConfig.mk 2 1 false false [(0, 2), (2, 4)] 4)
          (ownerRealHost (CCConfig.mk 2 1 false false [(0, 2), (2, 4)] 4) e.1)
          e))) :=
  ⟨by decide, by decide, by decide, by decide,
    loadEdges_coverage (CCConfig.mk 2 1 false false [(0, 2), (2, 4)] 4)
      (by decide) (by decide) (by decide) [(0, 3), (3, 0), (1, 1)]
      (by decide)⟩

end GaloisCC
